import Mathlib

/-!
Verification of the dt-schema devicetree schema tooling.

We shallowly embed the Python data model (YAML/JSON-like documents) and the
normalization, selection, dispatch and ABI-diff operations of
dtschema/lib.py, dtschema/validator.py, dtschema/cmp_schema.py and
dt-validate.py, and settle the frozen claims about them.

Python dicts are modelled as association lists with unique keys, preserving
insertion order (Python 3.7+ dicts preserve insertion order; assignment to an
existing key keeps its position, assignment to a fresh key appends).
Recursive traversals over documents are written with an explicit fuel
parameter and return an Option: a result of some r means the Python
function terminates with r; fuel exhaustion gives none (on actual inputs the
recursion depth is finite, so some fuel always suffices).
-/

namespace DtSchema

/-!
Dimension merging (lib.py _merge_dim, identical in validator.py _merge_dim).
A dimension is an (outer, inner) pair of (min, max) ranges.  Python computes
min(dim1[i] + dim2[i]) and max(dim1[i] + dim2[i]), i.e. the minimum and the
maximum over the four concatenated tuple components.
-/

/-!
The schema normalizer of lib.py: per-property fixups (fixup_vals and its
helpers), the property walker (walk_properties) and the document walker
(fixup_sub_schema).  Python type tests (isinstance) become constructor
matches on J.  Paths on which Python raises an exception on ill-shaped
documents (indexing a non-sequence, popping from a non-mapping, ...) are
noted in comments at the match arms modelling them.
-/

/-!
The ABI diff tool (dtschema/cmp_schema.py): prop_generator,
_prop_in_schema, check_removed_property and the required-set comparison. -/

/-- A YAML/JSON document value: the in-memory form of schema documents and
subject nodes after parsing (scalars, sequences and mappings). -/
inductive J where
  | null : J
  | b : Bool → J
  | i : Int → J
  | s : String → J
  | arr : List J → J
  | obj : List (String × J) → J
deriving Repr

/-- Look up a key in a mapping (first occurrence), like Python d[k] / d.get(k). -/
def getKey : List (String × J) → String → Option J
  | [], _ => none
  | (k, v) :: rest, key => if k = key then some v else getKey rest key

/-- Key membership test, like Python's k in d. -/
def hasKey (fs : List (String × J)) (k : String) : Bool :=
  (getKey fs k).isSome

/-- Python d[k] = v: overwrite in place when the key exists (keeping its
position), append at the end otherwise. -/
def setKey : List (String × J) → String → J → List (String × J)
  | [], key, v => [(key, v)]
  | (k, w) :: rest, key, v =>
    if k = key then (k, v) :: rest else (k, w) :: setKey rest key v

/-- Python d.pop(k, None): remove the key (all occurrences; keys are unique
in dictionaries produced by Python). -/
def delKey : List (String × J) → String → List (String × J)
  | [], _ => []
  | (k, w) :: rest, key =>
    if k = key then delKey rest key else (k, w) :: delKey rest key

/-- Python d.setdefault(k, v): insert only when the key is absent. -/
def setDefault (fs : List (String × J)) (k : String) (v : J) : List (String × J) :=
  if hasKey fs k then fs else setKey fs k v

/-- Option-valued map over a list (Python: mutate every element in place,
failing when any element fails), with transparent equations. -/
def mapMO (f : α → Option β) : List α → Option (List β)
  | [] => some []
  | x :: xs => do
    let y ← f x
    let ys ← mapMO f xs
    return y :: ys

/-- Python list.remove(x) for string lists: drop the first occurrence. -/
def removeFirst : List J → String → List J
  | [], _ => []
  | J.s x :: rest, key =>
    if x = key then rest else J.s x :: removeFirst rest key
  | x :: rest, key => x :: removeFirst rest key

/-- One axis of lib.py _merge_dim: (0,0) on either side is "unconstrained"
and yields the other side; otherwise take min/max over all four bounds. -/
def mergeAxis (a b : Nat × Nat) : Nat × Nat :=
  if a = (0, 0) then b
  else if b = (0, 0) then a
  else (min (min (min a.1 a.2) b.1) b.2, max (max (max a.1 a.2) b.1) b.2)

/-- lib.py _merge_dim: merge the outer and the inner axis independently. -/
def mergeDim (d1 d2 : (Nat × Nat) × (Nat × Nat)) : (Nat × Nat) × (Nat × Nat) :=
  (mergeAxis d1.1 d2.1, mergeAxis d1.2 d2.2)

/-- lib.py _value_is_type specialised to int: subschema[key] (its first
element when it is a list) is an int.  Python bool is a subclass of int, so
boolean values also count.  An empty list makes Python raise IndexError;
such documents are not modelled (arm yields false). -/
def valueIsInt (fs : List (String × J)) (key : String) : Bool :=
  match getKey fs key with
  | some (J.arr (J.i _ :: _)) => true
  | some (J.arr (J.b _ :: _)) => true
  | some (J.i _) => true
  | some (J.b _) => true
  | _ => false

/-- lib.py _value_is_type specialised to str. -/
def valueIsStr (fs : List (String × J)) (key : String) : Bool :=
  match getKey fs key with
  | some (J.arr (J.s _ :: _)) => true
  | some (J.s _) => true
  | _ => false

/-- lib.py _is_int_schema. -/
def isIntSchema (fs : List (String × J)) : Bool :=
  valueIsInt fs "const" || valueIsInt fs "enum" ||
  valueIsInt fs "minimum" || valueIsInt fs "maximum"

/-- lib.py _is_string_schema. -/
def isStrSchema (fs : List (String × J)) : Bool :=
  valueIsStr fs "const" || valueIsStr fs "enum" || valueIsStr fs "pattern"

/-- The scalar keywords popped by lib.py _extract_single_schemas, in the
order of its tuple. -/
def singleSchemaKeys : List String :=
  ["const", "enum", "pattern", "minimum", "maximum"]

/-- lib.py _extract_single_schemas: the popped entries (in keyword order)
paired with the remaining mapping. -/
def extractSingleSchemas (fs : List (String × J)) :
    List (String × J) × List (String × J) :=
  (singleSchemaKeys.filterMap (fun k => (getKey fs k).map (fun v => (k, v))),
   singleSchemaKeys.foldl delKey fs)

/-- lib.py _fixup_string_to_array. -/
def fixupStringToArray (fs : List (String × J)) : List (String × J) :=
  if !isStrSchema fs then fs
  else
    let ex := extractSingleSchemas fs
    setKey ex.2 "items" (J.arr [J.obj ex.1])

/-- lib.py _fixup_scalar_to_array. -/
def fixupScalarToArray (fs : List (String × J)) : List (String × J) :=
  if !isIntSchema fs then fs
  else
    let ex := extractSingleSchemas fs
    setKey ex.2 "items" (J.arr [J.obj [("items", J.arr [J.obj ex.1])]])

/-- lib.py _fixup_reg_schema: for the property literally named reg, wrap an
untyped integer item constraint one level deeper.  When items exists its
first (or sole) mapping is the item schema; the keys remaining in it after
extraction are discarded by the rebuild, exactly as in the source. -/
def fixupRegSchema (p : String) (fs : List (String × J)) : List (String × J) :=
  if p ≠ "reg" then fs
  else
    match getKey fs "items" with
    | some (J.arr (J.obj ifs :: _)) =>
      if isIntSchema ifs then
        setKey fs "items"
          (J.arr [J.obj [("items", J.arr [J.obj (extractSingleSchemas ifs).1])]])
      else fs
    | some (J.obj ifs) =>
      if isIntSchema ifs then
        setKey fs "items"
          (J.arr [J.obj [("items", J.arr [J.obj (extractSingleSchemas ifs).1])]])
      else fs
    | some _ => fs  -- items[0] on an empty or scalar items raises in Python; not modelled
    | none =>
      if isIntSchema fs then
        let ex := extractSingleSchemas fs
        setKey ex.2 "items" (J.arr [J.obj [("items", J.arr [J.obj ex.1])]])
      else fs

/-- Does a mapping carry any of items/maxItems/minItems (the key-set
intersection test of lib.py _is_matrix_schema)? -/
def hasItemsKeys (fs : List (String × J)) : Bool :=
  hasKey fs "items" || hasKey fs "maxItems" || hasKey fs "minItems"

/-- lib.py _is_matrix_schema. -/
def isMatrixSchema (fs : List (String × J)) : Bool :=
  match getKey fs "items" with
  | some (J.arr l) =>
    l.any (fun x => match x with
      | J.obj ifs => hasItemsKeys ifs
      | _ => false)  -- non-mapping entries raise in Python; not modelled
  | some (J.obj ifs) => hasItemsKeys ifs
  | _ => false

/-- Integer value of a mapping entry, with a default (lib.py
subschema.get(key, default) at sites where the value is a size bound). -/
def intOr (o : Option J) (d : Int) : Int :=
  match o with
  | some (J.i n) => n
  | _ => d

/-- lib.py _get_array_range on a mapping. -/
def getArrayRangeObj (fs : List (String × J)) : Int × Int :=
  match getKey fs "items" with
  | some (J.arr l) =>
    ((intOr (getKey fs "minItems") l.length : Int), (l.length : Int))
  | _ =>
    (intOr (getKey fs "minItems") 1,
     intOr (getKey fs "maxItems") (intOr (getKey fs "minItems") 0))

/-- lib.py _get_array_range: a singleton list is unwrapped, any other list
is the unconstrained range. -/
def getArrayRange (j : J) : Int × Int :=
  match j with
  | J.arr [J.obj fs] => getArrayRangeObj fs
  | J.arr _ => (0, 0)
  | J.obj fs => getArrayRangeObj fs
  | _ => (0, 0)  -- .get on a scalar raises in Python; call sites pass mappings or lists

/-- lib.py known_variable_matrix_props. -/
def knownVariableMatrixProps (p : String) : Bool :=
  p = "fsl,pins"

/-- lib.py _fixup_int_matrix: drop the dimensions of a matrix whose inner
and outer dimensions are both variable, or whose property name is in the
known variable-matrix set. -/
def fixupIntMatrix (p : String) (fs : List (String × J)) : List (String × J) :=
  if !isMatrixSchema fs then fs
  else
    let outer := getArrayRangeObj fs
    let inner := getArrayRange ((getKey fs "items").getD (J.obj []))
    if knownVariableMatrixProps p || (outer.1 ≠ outer.2 && inner.1 ≠ inner.2) then
      setKey (delKey (delKey (delKey fs "items") "maxItems") "minItems")
        "type" (J.s "array")
    else fs

/-- Character-list prefix test (structural, so that every string test in
the embedding evaluates by plain reduction). -/
def isPrefixCL : List Char → List Char → Bool
  | [], _ => true
  | _ :: _, [] => false
  | a :: as, b :: bs => a = b && isPrefixCL as bs

/-- Character-list substring test. -/
def containsCL (needle : List Char) : List Char → Bool
  | [] => needle.isEmpty
  | c :: rest => isPrefixCL needle (c :: rest) || containsCL needle rest

/-- Substring search on strings (the semantics of re.search for a literal
pattern). -/
def strContains (hay needle : String) : Bool :=
  containsCL needle.data hay.data

/-- Suffix test on strings (the semantics of a dollar-anchored re.search). -/
def strEndsWith (hay suffix : String) : Bool :=
  isPrefixCL suffix.data.reverse hay.data.reverse

/-- Prefix test on strings (the semantics of a caret-anchored re.match). -/
def strStartsWith (hay pre : String) : Bool :=
  isPrefixCL pre.data hay.data

/-- The substrings matched by lib.py int_array_re, int(8|16|32|64)-array,
as a substring search over the $ref text. -/
def intArrayRefMatch (r : String) : Bool :=
  ["int8-array", "int16-array", "int32-array", "int64-array"].any
    (fun pat => strContains r pat)

/-- The alternatives of lib.py unit_types_re, expanded: the regex matches a
property name ending in a dash followed by one of these suffixes. -/
def unitSuffixes : List String :=
  ["kBps", "bits", "percent", "bp", "mhz", "hz", "sec", "ms", "us", "ns",
   "ps", "mm", "nanoamp", "micro-ohms", "ohms", "microamp-hours", "microamp",
   "microwatt-hours", "microwatt", "milliwatt", "microvolt", "picofarads",
   "millicelsius", "celsius", "kelvin", "kpascal"]

/-- lib.py unit_types_re.search(propname). -/
def unitTypesMatch (p : String) : Bool :=
  unitSuffixes.any (fun suf => strEndsWith p ("-" ++ suf))

/-- lib.py known_array_props. -/
def knownArrayProps (p : String) : Bool :=
  p ∈ ["assigned-clock-rates", "linux,keycodes",
       "max8997,pmic-buck1-dvs-voltage", "max8997,pmic-buck2-dvs-voltage",
       "max8997,pmic-buck5-dvs-voltage"]

/-- The allOf scan of lib.py is_int_array_schema: entries with items
reassign the subject (and skip their own $ref), the first remaining entry
with a $ref decides immediately. -/
def isIntArrayAllOfLoop (cur : List (String × J)) :
    List J → List (String × J) × Option Bool
  | [] => (cur, none)
  | item :: rest =>
    match item with
    | J.obj ifs =>
      if hasKey ifs "items" then isIntArrayAllOfLoop ifs rest
      else
        match getKey ifs "$ref" with
        | some (J.s r) => (cur, some (intArrayRefMatch r))
        | some _ => (cur, some false)  -- re.search on a non-string raises; not modelled
        | none => isIntArrayAllOfLoop cur rest
    | _ => isIntArrayAllOfLoop cur rest  -- membership tests on scalars; not modelled

/-- lib.py is_int_array_schema. -/
def isIntArraySchema (p : String) (fs0 : List (String × J)) : Bool :=
  let scan :=
    match getKey fs0 "allOf" with
    | some (J.arr items) => isIntArrayAllOfLoop fs0 items
    | _ => (fs0, none)
  match scan.2 with
  | some bv => bv
  | none =>
    match getKey scan.1 "$ref" with
    | some (J.s r) => intArrayRefMatch r
    | some _ => false  -- re.search on a non-string raises; not modelled
    | none =>
      if unitTypesMatch p || knownArrayProps p then true
      else
        match getKey scan.1 "items" with
        | some (J.arr (J.obj ifs :: _)) => isIntSchema ifs
        | some (J.obj ifs) => isIntSchema ifs
        | _ => false

/-- lib.py _fixup_items_size, with fuel: on lists recurse into the members,
on mappings drop description, give every items-bearing node type array (and
bounds from the length of a list-shaped items), recurse into items, and on
items-free nodes complete a single bound from the other one. -/
def fixupItemsSizeF : Nat → J → Option J
  | 0, _ => none
  | n + 1, J.arr l => (mapMO (fixupItemsSizeF n) l).map J.arr
  | _ + 1, J.null => some J.null
  | _ + 1, J.b bv => some (J.b bv)
  | _ + 1, J.i iv => some (J.i iv)
  | _ + 1, J.s sv => some (J.s sv)
  | n + 1, J.obj fs0 =>
    let fs := delKey fs0 "description"
    match getKey fs "items" with
    | some it =>
      let fs := setKey fs "type" (J.s "array")
      let fs :=
        match it with
        | J.arr l =>
          let fs := if hasKey fs "minItems" then fs
                    else setKey fs "minItems" (J.i l.length)
          if hasKey fs "maxItems" then fs
          else setKey fs "maxItems" (J.i l.length)
        | _ => fs
      (fixupItemsSizeF n it).map (fun it' => J.obj (setKey fs "items" it'))
    | none =>
      if hasKey fs "maxItems" && !hasKey fs "minItems" then
        some (J.obj (setKey fs "minItems" ((getKey fs "maxItems").getD J.null)))
      else if hasKey fs "minItems" && !hasKey fs "maxItems" then
        some (J.obj (setKey fs "maxItems" ((getKey fs "minItems").getD J.null)))
      else some (J.obj fs)

/-- The per-item loop of lib.py _fixup_remove_empty_items, parameterized by
the recursive cleanup f: items are processed in order (description dropped,
then cleaned by f) and the loop stops after the first item that is
non-empty afterwards; the returned flag says whether the loop ran to the
end with every item empty. -/
def remLoopWith (f : List (String × J) → Option (List (String × J))) :
    List J → Option (List J × Bool)
  | [] => some ([], true)
  | item :: rest =>
    match item with
    | J.obj ifs => do
      let ifs1 ← f (delKey ifs "description")
      if ifs1.isEmpty then do
        let r ← remLoopWith f rest
        return (J.obj ifs1 :: r.1, r.2)
      else
        return (J.obj ifs1 :: rest, false)
    | _ => none  -- .pop on a non-mapping item raises in Python

/-- lib.py _fixup_remove_empty_items on a mapping, with fuel. -/
def removeEmptyItemsF : Nat → List (String × J) → Option (List (String × J))
  | 0, _ => none
  | n + 1, fs =>
    match getKey fs "items" with
    | none => some fs
    | some (J.obj ifs) =>
      (removeEmptyItemsF n ifs).map (fun ifs' => setKey fs "items" (J.obj ifs'))
    | some (J.arr l) => do
      let r ← remLoopWith (fun gs => removeEmptyItemsF n gs) l
      if r.2 then
        let fs1 := setDefault fs "type" (J.s "array")
        let fs2 := setDefault fs1 "maxItems" (J.i l.length)
        let fs3 := setDefault fs2 "minItems" (J.i l.length)
        return delKey fs3 "items"
      else
        return setKey fs "items" (J.arr r.1)
    | some _ => none  -- iterating a scalar items raises in Python

/-- First mapping entry of an allOf list carrying minItems or maxItems (the
target-reassignment scan of lib.py _fixup_int_array_min_max_to_matrix),
with its index.  Non-mapping entries raise in Python and are not modelled. -/
def findBoundsIdx : List J → Option (Nat × List (String × J))
  | [] => none
  | J.obj ifs :: rest =>
    if hasKey ifs "minItems" || hasKey ifs "maxItems" then some (0, ifs)
    else (findBoundsIdx rest).map (fun r => (r.1 + 1, r.2))
  | _ :: rest => (findBoundsIdx rest).map (fun r => (r.1 + 1, r.2))

/-- First mapping entry of an allOf list carrying items (the scan of lib.py
_fixup_int_array_items_to_matrix), with its index. -/
def findItemsIdx : List J → Option (Nat × List (String × J))
  | [] => none
  | J.obj ifs :: rest =>
    if hasKey ifs "items" then some (0, ifs)
    else (findItemsIdx rest).map (fun r => (r.1 + 1, r.2))
  | _ :: rest => (findItemsIdx rest).map (fun r => (r.1 + 1, r.2))

/-- Python v == 1 for an optional mapping entry (bounds are integers at the
sites where lib.py performs this comparison). -/
def isIntOne (o : Option J) : Bool :=
  match o with
  | some (J.i n) => n = 1
  | _ => false

/-- The body of lib.py _fixup_int_array_min_max_to_matrix once the target
mapping is chosen: pop the bounds into a oneOf of the single-row and the
per-cell encodings, bump a minimum of one in the first alternative, and run
_fixup_items_size over the new oneOf list. -/
def minMaxToMatrixCore (n : Nat) (tfs : List (String × J)) :
    Option (List (String × J)) :=
  match getKey tfs "items" with
  | some (J.arr _) => some tfs
  | _ =>
    if isMatrixSchema tfs then some tfs
    else if isIntOne (getKey tfs "maxItems") then some tfs
    else
      let tmpsch :=
        (match getKey tfs "minItems" with
         | some v => [("minItems", v)] | none => []) ++
        (match getKey tfs "maxItems" with
         | some v => [("maxItems", v)] | none => [])
      if tmpsch.isEmpty then some tfs
      else
        let tfs1 := delKey (delKey tfs "minItems") "maxItems"
        let alt0 := setKey tmpsch "items" (J.obj [("maxItems", J.i 1)])
        let alt0 :=
          if isIntOne (getKey alt0 "minItems") then
            setKey alt0 "minItems" (J.i 2)
          else alt0
        let alt1 := [("items", J.arr [J.obj tmpsch])]
        (fixupItemsSizeF n (J.arr [J.obj alt0, J.obj alt1])).map
          (fun oneOf' => setKey tfs1 "oneOf" oneOf')

/-- lib.py _fixup_int_array_min_max_to_matrix, with fuel. -/
def fixupIntArrayMinMaxToMatrix (n : Nat) (p : String)
    (fs : List (String × J)) : Option (List (String × J)) :=
  if !isIntArraySchema p fs then some fs
  else
    match getKey fs "allOf" with
    | some (J.arr items) =>
      match findBoundsIdx items with
      | some idx =>
        (minMaxToMatrixCore n idx.2).map
          (fun tfs' => setKey fs "allOf" (J.arr (items.set idx.1 (J.obj tfs'))))
      | none => minMaxToMatrixCore n fs
    | _ => minMaxToMatrixCore n fs

/-- The body of lib.py _fixup_int_array_items_to_matrix once the target
mapping is chosen: relocate items/minItems/maxItems/uniqueItems/default one
level down, as a dict-shaped or a single-entry list-shaped items. -/
def itemsToMatrixCore (tfs : List (String × J)) : List (String × J) :=
  if !hasKey tfs "items" || isMatrixSchema tfs then tfs
  else
    let itemkeys := ["items", "minItems", "maxItems", "uniqueItems", "default"]
    let extracted := itemkeys.filterMap
      (fun k => (getKey tfs k).map (fun v => (k, v)))
    let remaining := itemkeys.foldl delKey tfs
    match getKey tfs "items" with
    | some (J.obj _) => setKey remaining "items" (J.obj extracted)
    | some (J.arr _) => setKey remaining "items" (J.arr [J.obj extracted])
    | _ => tfs

/-- lib.py _fixup_int_array_items_to_matrix. -/
def fixupIntArrayItemsToMatrix (p : String) (fs : List (String × J)) :
    List (String × J) :=
  if !isIntArraySchema p fs then fs
  else
    match getKey fs "allOf" with
    | some (J.arr items) =>
      match findItemsIdx items with
      | some idx => setKey fs "allOf" (J.arr (items.set idx.1 (J.obj (itemsToMatrixCore idx.2))))
      | none => itemsToMatrixCore fs
    | _ => itemsToMatrixCore fs

/-- One dependencies entry moved under dependentRequired or
dependentSchemas by fixup_schema_to_201909.  When the destination exists
with a non-mapping value, the item assignment raises and is swallowed, but
the setdefault before it persists. -/
def dep201909Put (acc : List (String × J)) (key k0 : String) (v0 : J) :
    List (String × J) :=
  let acc1 := setDefault acc key (J.obj [])
  match getKey acc1 key with
  | some (J.obj d) => setKey acc1 key (J.obj (setKey d k0 v0))
  | _ => acc1

/-- The per-entry dispatch of fixup_schema_to_201909: list values go to
dependentRequired, everything else to dependentSchemas. -/
def dep201909Step (acc : List (String × J)) (kv : String × J) :
    List (String × J) :=
  match kv.2 with
  | J.arr _ => dep201909Put acc "dependentRequired" kv.1 kv.2
  | _ => dep201909Put acc "dependentSchemas" kv.1 kv.2

/-- lib.py fixup_schema_to_201909: split a dependencies map into
dependentRequired (list-valued entries) and dependentSchemas (the rest).
The source pops dependencies first and swallows every exception; a
non-mapping dependencies therefore just disappears. -/
def fixupSchemaTo201909 (fs : List (String × J)) : List (String × J) :=
  match getKey fs "dependencies" with
  | none => fs
  | some (J.obj deps) => deps.foldl dep201909Step (delKey fs "dependencies")
  | some _ => delKey fs "dependencies"

/-- lib.py fixup_vals: the per-property fixup pipeline, in source order. -/
def fixupValsF (n : Nat) (p : String) (fs : List (String × J)) :
    Option (List (String × J)) := do
  let fs := delKey fs "description"
  let fs := fixupRegSchema p fs
  let fs ← removeEmptyItemsF n fs
  let fs := fixupIntMatrix p fs
  let fs ← fixupIntArrayMinMaxToMatrix n p fs
  let fs := fixupIntArrayItemsToMatrix p fs
  let fs := fixupStringToArray fs
  let fs := fixupScalarToArray fs
  match ← fixupItemsSizeF n (J.obj fs) with
  | J.obj fs2 => return fixupSchemaTo201909 fs2
  | _ => none  -- unreachable: _fixup_items_size keeps mappings mappings

/-- lib.py walk_properties, with fuel: recurse into allOf/oneOf/anyOf
members and into then, and apply fixup_vals at this level.  A combinator
whose value is not a list makes Python iterate it as a mapping or a string,
which leaves mappings unchanged (iteration yields plain key strings, on
which every fixup is a no-op); such values are kept unchanged here.  The
combinator and then steps are split out so that evaluation lemmas can be
stated for an arbitrary recursive walk f. -/
def walkCondAux (f : J → Option J) (fs : List (String × J)) (key : String) :
    Option (List (String × J)) :=
  match getKey fs key with
  | some (J.arr l) => (mapMO f l).map (fun l' => setKey fs key (J.arr l'))
  | _ => some fs

/-- The then step of lib.py walk_properties, for an arbitrary recursive
walk f. -/
def walkThenAux (f : J → Option J) (fs : List (String × J)) :
    Option (List (String × J)) :=
  match getKey fs "then" with
  | some v => (f v).map (fun v' => setKey fs "then" v')
  | none => some fs

/-- lib.py walk_properties, with fuel. -/
def walkPropertiesF : Nat → String → J → Option J
  | 0, _, _ => none
  | n + 1, p, J.obj fs => do
    let fs ← walkCondAux (walkPropertiesF n p) fs "allOf"
    let fs ← walkCondAux (walkPropertiesF n p) fs "oneOf"
    let fs ← walkCondAux (walkPropertiesF n p) fs "anyOf"
    let fs ← walkThenAux (walkPropertiesF n p) fs
    let fs' ← fixupValsF n p fs
    return J.obj fs'
  | _ + 1, _, x => some x

/-- lib.py item_generator, with fuel: yield, in document order, every value
found under the lookup key anywhere in the tree (without descending into a
matching value). -/
def itemGenF : Nat → String → J → Option (List J)
  | 0, _, _ => none
  | n + 1, key, J.obj fs =>
    (mapMO (fun kv => if kv.1 = key then some [kv.2] else itemGenF n key kv.2)
      fs).map List.flatten
  | n + 1, key, J.arr l => (mapMO (itemGenF n key) l).map List.flatten
  | _ + 1, _, _ => some []

/-- Python str() on scalar document values.  A container argument would
render as its repr; the sites using this are restricted (by hypotheses) to
scalar consts, as in real binding schemas. -/
def pyStr : J → String
  | J.s sv => sv
  | J.i iv => toString iv
  | J.b true => "True"
  | J.b false => "False"
  | J.null => "None"
  | J.arr _ => ""
  | J.obj _ => ""

/-- The string elements of a list of document values. -/
def stringsOf (l : List J) : List String :=
  l.filterMap (fun x => match x with | J.s sv => some sv | _ => none)

/-- The enum contributions of lib.py extract_node_compatibles: an enum list
whose first element is a string contributes its elements (Python adds every
element to the set; a non-string element would later make sorted() raise,
so only string elements are modelled and non-string ones are excluded by
hypotheses at the use sites). -/
def extractEnumStrings (enums : List J) : List String :=
  enums.foldl
    (fun acc l =>
      match l with
      | J.arr (J.s s0 :: rest) => acc ++ stringsOf (J.s s0 :: rest)
      | _ => acc) []

/-- Deduplication keeping first occurrences (the set semantics of
extract_node_compatibles; the order is erased by sorted() afterwards). -/
def dedupStrAux (acc : List String) : List String → List String
  | [] => acc.reverse
  | x :: xs => if x ∈ acc then dedupStrAux acc xs else dedupStrAux (x :: acc) xs

def dedupStr (l : List String) : List String :=
  dedupStrAux [] l

/-- Lexicographic comparison by code points (Python string <). -/
def strLtCL : List Char → List Char → Bool
  | [], [] => false
  | [], _ :: _ => true
  | _ :: _, [] => false
  | a :: as, b :: bs => a < b || (a = b && strLtCL as bs)

/-- Python string <=. -/
def strLeB (x y : String) : Bool :=
  !(strLtCL y.data x.data)

/-- Stable insertion into an ascending list. -/
def insertStr (x : String) : List String → List String
  | [] => [x]
  | y :: ys => if strLeB x y then x :: y :: ys else y :: insertStr x ys

/-- Python sorted() on a list of strings. -/
def sortStrings : List String → List String
  | [] => []
  | x :: xs => insertStr x (sortStrings xs)

/-- lib.py extract_node_compatibles, with fuel: collect enum elements,
stringified consts and pattern values anywhere under the compatible
constraint, as a deduplicated list. -/
def extractNodeCompatiblesF (n : Nat) (j : J) : Option (List String) :=
  match j with
  | J.obj _ => do
    let enums ← itemGenF n "enum" j
    let consts ← itemGenF n "const" j
    let pats ← itemGenF n "pattern" j
    return dedupStr (extractEnumStrings enums ++ consts.map pyStr ++ stringsOf pats)
  | _ => some []

/-- lib.py convert_to_dict: the ruamel-to-plain conversion is the identity
on our model. -/
def convert_to_dict (j : J) : J :=
  j

/-- The compatible-based selector lib.py add_select_schema builds. -/
def mkSelect (l : List String) : J :=
  J.obj [("required", J.arr [J.s "compatible"]),
    ("properties", J.obj [("compatible",
      J.obj [("contains", J.obj [("enum", J.arr (l.map J.s))])])])]

/-- lib.py add_select_schema, with fuel for the compatible extraction. -/
def addSelectSchemaF (n : Nat) (fs : List (String × J)) :
    Option (List (String × J)) :=
  if hasKey fs "select" then some fs
  else
    match getKey fs "properties" with
    | some (J.obj props) =>
      let nodenameBranch : Option (List (String × J)) :=
        match getKey props "$nodename" with
        | some (J.b true) => some (setKey fs "select" (J.b false))
        | some v => some (setKey fs "select" (J.obj
            [("required", J.arr [J.s "$nodename"]),
             ("properties", J.obj [("$nodename", convert_to_dict v)])]))
        | none => some (setKey fs "select" (J.b false))
      match getKey props "compatible" with
      | some compatSch => do
        let cs ← extractNodeCompatiblesF n compatSch
        if cs.isEmpty then nodenameBranch
        else
          let cs2 := (cs.filter (fun sv => sv ≠ "syscon")).filter
            (fun sv => sv ≠ "simple-mfd")
          if cs2.isEmpty then nodenameBranch
          else some (setKey fs "select" (mkSelect (sortStrings cs2)))
      | none => nodenameBranch
    | some _ => none  -- membership tests on a non-mapping properties; not modelled
    | none => some (setKey fs "select" (J.b false))

/-- lib.py fixup_interrupts: a node with interrupts (or
interrupt-controller) implicitly permits interrupt-parent; when interrupts
is declared and interrupts-extended is not, a deep copy of the interrupts
constraint is added under interrupts-extended, and a required interrupts is
replaced by a oneOf over the two alternatives (appended under allOf when a
oneOf already exists). -/
def fixupInterrupts (fs0 : List (String × J)) : List (String × J) :=
  match getKey fs0 "properties" with
  | some (J.obj props0) =>
    let props :=
      if (hasKey props0 "interrupts" || hasKey props0 "interrupt-controller") &&
          !hasKey props0 "interrupt-parent"
      then setKey props0 "interrupt-parent" (J.b true) else props0
    let fs := setKey fs0 "properties" (J.obj props)
    if !hasKey props "interrupts" || hasKey props "interrupts-extended" then fs
    else
      let props2 := setKey props "interrupts-extended"
        ((getKey props "interrupts").getD J.null)
      let fs := setKey fs "properties" (J.obj props2)
      match getKey fs "required" with
      | some (J.arr req) =>
        if req.any (fun x => match x with
          | J.s sv => sv = "interrupts"
          | _ => false) then
          let reqlist := J.arr
            [J.obj [("required", J.arr [J.s "interrupts"])],
             J.obj [("required", J.arr [J.s "interrupts-extended"])]]
          let fs :=
            if hasKey fs "oneOf" then
              match getKey fs "allOf" with
              | some (J.arr al) =>
                setKey fs "allOf" (J.arr (al ++ [J.obj [("oneOf", reqlist)]]))
              | some _ => fs  -- appending to a non-list allOf raises; not modelled
              | none => setKey fs "allOf" (J.arr [J.obj [("oneOf", reqlist)]])
            else setKey fs "oneOf" reqlist
          setKey fs "required" (J.arr (removeFirst req "interrupts"))
        else fs
      | some _ => fs  -- membership in a non-list required; not modelled
      | none => fs
  | some _ => fs0  -- keys() on a non-mapping properties raises; not modelled
  | none => fs0

/-- The oneOf alternative list fixup_interrupts installs. -/
def interruptsReqList : J :=
  J.arr [J.obj [("required", J.arr [J.s "interrupts"])],
         J.obj [("required", J.arr [J.s "interrupts-extended"])]]

/-- Occurrences of a given string in a list of document values. -/
def countStr (l : List J) (sv : String) : Nat :=
  (l.filter (fun x => match x with
    | J.s t => t = sv
    | _ => false)).length

/-- Modelled from the spec: the external structural validator's semantics
of a required list - every named property must be present on the node. -/
def requiredSat (names : List J) (node : List (String × J)) : Bool :=
  names.all (fun x => match x with
    | J.s sv => hasKey node sv
    | _ => false)

/-- Modelled from the spec: the external structural validator's semantics
of a oneOf over required-lists - exactly one alternative must hold. -/
def oneOfReqSat (branches : List J) (node : List (String × J)) : Bool :=
  (branches.filter (fun br =>
    match br with
    | J.obj bfs =>
      match getKey bfs "required" with
      | some (J.arr names) => requiredSat names node
      | _ => false
    | _ => false)).length = 1

/-- Python structural equality (==) on document values, with fuel:
mappings are equal when they have the same key set and pointwise equal
values (dictionary order is irrelevant in Python), sequences when they are
pointwise equal.  Fuel exhaustion yields false, so a true result is always
meaningful; a false result is meaningful whenever the same fuel proves the
reflexive comparisons of both operands true. -/
def pyEqF : Nat → J → J → Bool
  | 0, _, _ => false
  | n + 1, J.obj a, J.obj b =>
    a.all (fun kv => hasKey b kv.1) &&
    b.all (fun kv => hasKey a kv.1) &&
    a.all (fun kv =>
      match getKey b kv.1 with
      | some w => pyEqF n kv.2 w
      | none => false)
  | n + 1, J.arr a, J.arr b =>
    a.length = b.length && (a.zip b).all (fun xy => pyEqF n xy.1 xy.2)
  | _ + 1, J.null, J.null => true
  | _ + 1, J.b x, J.b y => x = y
  | _ + 1, J.i x, J.i y => x = y
  | _ + 1, J.s x, J.s y => x = y
  | _ + 1, _, _ => false

/-- The output claimed by the spec for normalizing a scalar integer leaf:
two nesting levels, bounds only at the outer level, and no other keys. -/
def c2ClaimedResult : J :=
  J.obj [("items", J.arr [J.obj [("items", J.arr [J.obj [("const", J.i 5)]])]]),
         ("minItems", J.i 1), ("maxItems", J.i 1), ("type", J.s "array")]

/-- The normal form fixup_vals actually produces for a const c integer
leaf: the inner items node also receives type, minItems and maxItems,
because _fixup_items_size recurses into the items value. -/
def constNormFields (c : Int) : List (String × J) :=
  [("items", J.arr [J.obj
      [("items", J.arr [J.obj [("const", J.i c)]]),
       ("type", J.s "array"), ("minItems", J.i 1), ("maxItems", J.i 1)]]),
   ("type", J.s "array"), ("minItems", J.i 1), ("maxItems", J.i 1)]

/-- The fields fixup_vals actually produces for a const 5 leaf under a
non-reg property name. -/
def c2ActualFields : List (String × J) :=
  constNormFields 5

/-- An integer-array subschema with no explicit bounds: the C7 input on
which re-normalization is not a fixed point. -/
def c7Input : J :=
  J.obj [("items", J.obj [("enum", J.arr [J.i 1, J.i 2])])]

/-- One application of walk_properties to c7Input: the int-array fixups
relocate items one level down and _fixup_items_size marks both levels as
arrays, leaving no explicit bounds anywhere. -/
def c7Once : J :=
  J.obj [("items", J.obj
      [("items", J.obj [("enum", J.arr [J.i 1, J.i 2])]),
       ("type", J.s "array")]),
    ("type", J.s "array")]

/-- A second application of walk_properties: the result of the first pass
is a matrix schema whose outer and inner ranges are both the variable
(1, 0), so _fixup_int_matrix now deletes items entirely. -/
def c7Twice : J :=
  J.obj [("type", J.s "array")]

/-- A matrix subschema whose outer and inner ranges are both the variable
(1, 0): the C6 input. -/
def c6Matrix : List (String × J) :=
  [("items", J.obj [("items", J.obj [])])]

/-- What _fixup_int_matrix leaves of a dropped matrix: pop items, maxItems
and minItems, and set type array. -/
def dropMatrixShape (fs : List (String × J)) : List (String × J) :=
  setKey (delKey (delKey (delKey fs "items") "maxItems") "minItems")
    "type" (J.s "array")

/-- Does an optional mapping entry hold the string "array"? -/
def isArrayTypeVal (o : Option J) : Bool :=
  match o with
  | some (J.s t) => t = "array"
  | _ => false

/-- The fields of a mapping value (empty for non-mappings). -/
def objFields : J → List (String × J)
  | J.obj fs => fs
  | _ => []

/-- Is a value a sequence? -/
def isArrJ : J → Bool
  | J.arr _ => true
  | _ => false

/-- The invariant claim C5 states, as a checker over the traversal of
_fixup_items_size (mappings reached through items values and sequence
members): every reached mapping with an items key carries type array and
both minItems and maxItems.  Exhausted fuel counts as true, so the theorem
quantifies over every fuel. -/
def c5ClaimCheck : Nat → J → Bool
  | 0, _ => true
  | n + 1, J.arr l => l.all (fun x => c5ClaimCheck n x)
  | n + 1, J.obj fs =>
    (match getKey fs "items" with
     | some it =>
       isArrayTypeVal (getKey fs "type") && hasKey fs "minItems" &&
       hasKey fs "maxItems" && c5ClaimCheck n it
     | none => true)
  | _ + 1, _ => true

/-- The invariant _fixup_items_size actually establishes: every reached
mapping with items carries type array, and carries both bounds when the
items value is a fixed-length sequence; a reached mapping without items has
either both bounds or neither. -/
def itemsSizeInv : Nat → J → Bool
  | 0, _ => true
  | n + 1, J.arr l => l.all (fun x => itemsSizeInv n x)
  | n + 1, J.obj fs =>
    (match getKey fs "items" with
     | some it =>
       isArrayTypeVal (getKey fs "type") &&
       (match it with
        | J.arr _ => hasKey fs "minItems" && hasKey fs "maxItems"
        | _ => true) &&
       itemsSizeInv n it
     | none => hasKey fs "minItems" == hasKey fs "maxItems")
  | _ + 1, _ => true

/-- A schema document whose compatible constraint carries an enum and a
pattern: the C1 input. -/
def c1Doc : List (String × J) :=
  [("properties", J.obj [("compatible",
    J.obj [("enum", J.arr [J.s "v,a"]), ("pattern", J.s "^x")])])]

/-- The C4 input: a schema that already declares interrupts-extended next
to a required interrupts. -/
def c4Doc : List (String × J) :=
  [("properties", J.obj
      [("interrupts", J.obj [("maxItems", J.i 1)]),
       ("interrupts-extended", J.b true)]),
   ("required", J.arr [J.s "interrupts"])]

/-- A well-formed C4 schema: required interrupts, no interrupts-extended. -/
def c4WDoc : List (String × J) :=
  [("properties", J.obj [("interrupts", J.obj [("maxItems", J.i 1)])]),
   ("required", J.arr [J.s "interrupts"])]

/-!
The validation dispatcher (dt-validate.py schema_group.check_node, and the
equivalent per-schema loop of validator.py DTValidator.iter_errors).  The
external structural validator is abstracted: a corpus entry carries its
select predicate (is_valid of the $select_validator) and its error list
on a node (the sorted iter_errors of the full schema); check_node itself -
the loop, the match flag and the error aggregation - is translated from the
source. -/
structure DTSchemaEntry where
  sel : J → Bool
  errs : J → List String

/-- dt-validate.py check_node: whether any selector matched, and the
concatenation, in corpus order, of the errors of every schema whose
selector matched. -/
def checkNode (schemas : List DTSchemaEntry) (node : J) : Bool × List String :=
  (schemas.any (fun s => s.sel node),
   schemas.foldr (fun s acc => (if s.sel node then s.errs node else []) ++ acc) [])

/-- The reporting of check_node: the per-schema errors, plus the
failed-to-match diagnostic when no selector matched. -/
def checkNodeReport (schemas : List DTSchemaEntry) (node : J) : List String :=
  if (checkNode schemas node).1 then (checkNode schemas node).2
  else (checkNode schemas node).2 ++ ["failed to match any schema"]

/-- A corpus entry matching nodes with key a and reporting no error. -/
def c8GoodSchema : DTSchemaEntry :=
  ⟨fun node => hasKey (objFields node) "a", fun _ => []⟩

/-- A corpus entry matching nodes with key a and reporting one error. -/
def c8BadSchema : DTSchemaEntry :=
  ⟨fun node => hasKey (objFields node) "a", fun _ => ["violated"]⟩

/-- Early-exit monadic any (the loop-with-return shape of
_prop_in_schema's reference scans). -/
def anyMO (f : α → Option Bool) : List α → Option Bool
  | [] => some false
  | x :: xs => do
    let b ← f x
    if b then pure true else anyMO f xs

/-- cmp_schema.py prop_generator, with fuel: yield every properties /
patternProperties entry with its path, recursively, in document order. -/
def propGenF : Nat → List String → J → Option (List (List String × J))
  | 0, _, _ => none
  | n + 1, path, J.obj fs =>
    let genKey := fun (key : String) =>
      match getKey fs key with
      | some (J.obj props) =>
        (mapMO (fun kv =>
          (propGenF n (path ++ [key, kv.1]) kv.2).map
            (fun sub => (path ++ [key, kv.1], kv.2) :: sub)) props).map
          List.flatten
      | some _ => none  -- .items() on a non-mapping raises; not modelled
      | none => some []
    do
    let l1 ← genKey "properties"
    let l2 ← genKey "patternProperties"
    return l1 ++ l2
  | _ + 1, _, _ => some []

/-- cmp_schema.py _ref_to_id.  Modelled from the spec: the join of the
reference against the schema's $id is urllib (an external collaborator)
and is the identity for the absolute references exercised here; the
source's own contribution is appending # when the reference carries no
JSON-pointer fragment. -/
def refToId (_id ref : String) : String :=
  if strContains ref "#/" then ref else ref ++ "#"

/-- cmp_schema.py _prop_in_schema, with fuel: the property name is found
when some generated path has it at index 1 (i.e. it is a top-level
property name), or through an allOf entry's $ref into another corpus
schema, or through the schema's own top-level $ref. -/
def propInSchemaF : Nat → String → List (String × J) → List (String × J) →
    Option Bool
  | 0, _, _, _ => none
  | n + 1, prop, sfs, schemas =>
    let resolve := fun (r : String) =>
      match getKey sfs "$id" with
      | some (J.s i) =>
        match getKey schemas (refToId i r) with
        | some (J.obj tfs) => propInSchemaF n prop tfs schemas
        | some _ => some false  -- non-mapping corpus entry; not modelled
        | none => some false
      | _ => none  -- schema['$id'] missing or non-string raises
    do
    let gen ← propGenF n [] (J.obj sfs)
    if gen.any (fun e => e.1[1]? == some prop) then pure true
    else do
      let b1 ←
        match getKey sfs "allOf" with
        | some (J.arr l) =>
          anyMO (fun e =>
            match e with
            | J.obj efs =>
              match getKey efs "$ref" with
              | some (J.s r) => resolve r
              | some _ => none  -- non-string $ref raises in urljoin
              | none => pure false
            | _ => pure false) l
        | _ => pure false
      if b1 then pure true
      else
        match getKey sfs "$ref" with
        | some (J.s r) => resolve r
        | some _ => none
        | none => pure false

/-- cmp_schema.py check_removed_property, with fuel: the paths of the
baseline's generated properties whose index-1 name _prop_in_schema does
not find in the new corpus entry of the same $id. -/
def checkRemovedPropertyF (n : Nat) (i : String) (base : List (String × J))
    (schemas : List (String × J)) : Option (List (List String)) := do
  let gen ← propGenF n [] (J.obj base)
  let tfs ←
    match getKey schemas i with
    | some (J.obj tfs) => some tfs
    | _ => none
  let checked ← mapMO (fun e =>
    (propInSchemaF n ((e.1[1]?).getD "") tfs schemas).map
      (fun b => (e.1, b))) gen
  return (checked.filter (fun x => !x.2)).map (fun x => x.1)

/-- The required names contributed by one combinator alternative
(cmp_schema.py _get_required's inner loop; only string entries are
modelled, a non-list required would concatenate characters in Python). -/
def comboEntryRequired : J → List String
  | J.obj efs =>
    (match getKey efs "required" with
     | some (J.arr names) => stringsOf names
     | _ => [])
  | _ => []

/-- The required names contributed by one combinator keyword. -/
def requiredOfCombo (fs : List (String × J)) (k : String) : List String :=
  match getKey fs k with
  | some (J.arr l) => (l.map comboEntryRequired).flatten
  | _ => []

/-- cmp_schema.py _get_required: the set of required names gathered from
allOf/oneOf/anyOf alternatives and the top-level required list (a
deduplicated list here; Python builds a set). -/
def getRequiredF (fs : List (String × J)) : List String :=
  dedupStr (requiredOfCombo fs "allOf" ++ requiredOfCombo fs "oneOf" ++
    requiredOfCombo fs "anyOf" ++
    (match getKey fs "required" with
     | some (J.arr names) => stringsOf names
     | _ => []))

/-- cmp_schema.py _check_required at the top level: the new-required
names absent from the baseline's required set, when the new set is
non-empty and the difference is non-empty. -/
def checkRequiredTopFlag (base new : List (String × J)) : Option (List String) :=
  let baseReq := getRequiredF base
  let newReq := getRequiredF new
  if newReq.isEmpty then none
  else
    let diff := newReq.filter (fun sv => sv ∉ baseReq)
    if diff.isEmpty then none else some diff

/-- The C9 baseline: the nested property x under a. -/
def c9Base : List (String × J) :=
  [("$id", J.s "X"),
   ("properties", J.obj [("a", J.obj [("properties", J.obj [("x", J.obj [])])])])]

/-- The C9 new snapshot: the nested x is gone, a remains. -/
def c9New : List (String × J) :=
  [("$id", J.s "X"), ("properties", J.obj [("a", J.obj [])])]

/-- The concrete path listing that prop_generator yields on the C9
baseline: the top-level a and the nested x under it. -/
def c9Gen : List (List String × J) :=
  [(["properties", "a"],
      J.obj [("properties", J.obj [("x", J.obj [])])]),
   (["properties", "a", "properties", "x"], J.obj [])]

/-- Python v == True for document values: bool is an int subclass, so the
integer 1 also compares equal to True (the test guarding the
additionalProperties deletion in lib.py fixup_sub_schema). -/
def pyEqTrueB : J → Bool
  | J.b bv => bv
  | J.i iv => iv == 1
  | _ => false

/-- The optional value is the literal Python True (an is-True identity
test, and the shape the C10 invariant forbids). -/
def isTrueJ : Option J → Bool
  | some (J.b true) => true
  | _ => false

/-- The keys whose values fixup_sub_schema recurses into as single
subschemas, with is_prop False. -/
def subKeysSingle : List String :=
  ["select", "if", "then", "else", "additionalProperties", "not"]

/-- The combinator keys whose list elements fixup_sub_schema recurses
into, with is_prop True. -/
def subKeysCombo : List String := ["allOf", "anyOf", "oneOf"]

/-- The mapping-valued keys whose property values fixup_sub_schema walks
with walk_properties and recurses into. -/
def subKeysMaps : List String :=
  ["dependentRequired", "dependentSchemas", "dependencies",
   "properties", "patternProperties", "$defs"]

/-- re.match of the pinctrl pattern in lib.py fixup_node_props: the key
starts with pinctrl- followed by a decimal digit. -/
def pinctrlKeyMatch (k : String) : Bool :=
  isPrefixCL "pinctrl-".data k.data &&
    (match k.data.drop 8 with
     | c :: _ => c.isDigit
     | [] => false)

/-- lib.py fixup_node_props: on nodes constraining their property set
(and not waiving it with additionalProperties/unevaluatedProperties
identitically True), install the implicit properties phandle, status,
secure-status and $nodename, the pinctrl defaults when no pinctrl-digit
key is declared, and the assigned-clocks trio when clocks is declared
without assigned-clocks.  Paths where Python raises (a non-mapping
properties or patternProperties value) are not modelled. -/
def fixupNodeProps (fs0 : List (String × J)) : Option (List (String × J)) :=
  if !(hasKey fs0 "properties" || hasKey fs0 "patternProperties" ||
       hasKey fs0 "unevaluatedProperties") then some fs0
  else if isTrueJ (getKey fs0 "additionalProperties") ||
          isTrueJ (getKey fs0 "unevaluatedProperties") then some fs0
  else do
    let fs := setDefault fs0 "properties" (J.obj [])
    let props0 ←
      match getKey fs "properties" with
      | some (J.obj p) => some p
      | _ => none
    let props := setDefault (setDefault (setDefault (setDefault props0
        "phandle" (J.b true)) "status" (J.b true))
        "secure-status" (J.b true)) "$nodename" (J.b true)
    let keys ←
      match getKey fs "patternProperties" with
      | some (J.obj pp) => some (props.map Prod.fst ++ pp.map Prod.fst)
      | none => some (props.map Prod.fst)
      | some _ => none
    let fs := setKey fs "properties" (J.obj props)
    let st ←
      if keys.any pinctrlKeyMatch then some (fs, props)
      else do
        let props := setDefault props "pinctrl-names" (J.b true)
        let fs := setKey fs "properties" (J.obj props)
        let fs := setDefault fs "patternProperties" (J.obj [])
        match getKey fs "patternProperties" with
        | some (J.obj pp) =>
          some (setKey fs "patternProperties"
            (J.obj (setKey pp "pinctrl-[0-9]+" (J.b true))), props)
        | _ => none
    if keys.contains "clocks" && !keys.contains "assigned-clocks" then
      return setKey st.1 "properties" (J.obj
        (setKey (setKey (setKey st.2 "assigned-clocks" (J.b true))
          "assigned-clock-rates" (J.b true))
          "assigned-clock-parents" (J.b true)))
    else
      return st.1

/-- One value of the fixup_sub_schema key loop: the three disjoint key
classes applied to the value in source order.  Iterating a combinator
whose value is a mapping or a string visits plain strings, on which the
recursion is a no-op; an empty list under a mapping-class key iterates
vacuously; the remaining shapes raise in Python and are not modelled. -/
def subVal (f : Bool → J → Option J) (wp : String → J → Option J)
    (k : String) (v : J) : Option J := do
  let v1 ← if subKeysSingle.contains k then f false v else some v
  let v2 ←
    if subKeysCombo.contains k then
      match v1 with
      | J.arr l => (mapMO (f true) l).map J.arr
      | J.obj o => some (J.obj o)
      | J.s sv => some (J.s sv)
      | _ => none
    else some v1
  if subKeysMaps.contains k then
    match v2 with
    | J.obj ps =>
      (mapMO (fun p => do
        let w ← wp p.1 p.2
        let w2 ← f true w
        return (p.1, w2)) ps).map J.obj
    | J.arr [] => some v2
    | _ => none
  else some v2

/-- lib.py fixup_sub_schema, with fuel: strip description, fix up
interrupts, install the implicit node properties when is_prop, delete an
additionalProperties entry Python-equal to True, recurse through the three
key classes, and finish with the 2019-09 dependencies split. -/
def fixupSubSchemaF : Nat → Bool → J → Option J
  | 0, _, _ => none
  | n + 1, is_prop, J.obj fs0 => do
    let fs := delKey fs0 "description"
    let fs := fixupInterrupts fs
    let fs ← if is_prop then fixupNodeProps fs else some fs
    let fs :=
      match getKey fs "additionalProperties" with
      | some v => if pyEqTrueB v then delKey fs "additionalProperties" else fs
      | none => fs
    let fs ← mapMO (fun kv =>
      (subVal (fixupSubSchemaF n) (walkPropertiesF n) kv.1 kv.2).map
        (fun w => (kv.1, w))) fs
    return J.obj (fixupSchemaTo201909 fs)
  | _ + 1, _, j => some j

/-- The C10 invariant checker, with its own fuel (true on exhaustion): this
node, and every mapping the fixup_sub_schema traversal reaches from it, is
free of an additionalProperties entry whose value is the literal true. -/
def noAddTrue : Nat → J → Bool
  | 0, _ => true
  | m + 1, J.obj fs =>
    !isTrueJ (getKey fs "additionalProperties") &&
    fs.all (fun kv =>
      if subKeysSingle.contains kv.1 then noAddTrue m kv.2
      else if subKeysCombo.contains kv.1 then
        match kv.2 with
        | J.arr l => l.all (fun x => noAddTrue m x)
        | _ => true
      else if subKeysMaps.contains kv.1 then
        match kv.2 with
        | J.obj ps => ps.all (fun p => noAddTrue m p.2)
        | _ => true
      else true)
  | _ + 1, _ => true

/-- The per-entry condition of noAddTrue at one fuel step, factored out so
that transfer lemmas can speak about single entries. -/
def entOK (m : Nat) (kv : String × J) : Bool :=
  if subKeysSingle.contains kv.1 then noAddTrue m kv.2
  else if subKeysCombo.contains kv.1 then
    match kv.2 with
    | J.arr l => l.all (fun x => noAddTrue m x)
    | _ => true
  else if subKeysMaps.contains kv.1 then
    match kv.2 with
    | J.obj ps => ps.all (fun p => noAddTrue m p.2)
    | _ => true
  else true

theorem getKey_setKey_same (fs : List (String × J)) (k : String) (v : J) :
    getKey (setKey fs k v) k = some v := by
  induction fs with
  | nil => simp [setKey, getKey]
  | cons hd tl ih =>
    obtain ⟨k', w⟩ := hd
    by_cases h : k' = k <;> simp [setKey, getKey, h, ih]

theorem getKey_setKey_other (fs : List (String × J)) (k k' : String) (v : J)
    (h : k' ≠ k) : getKey (setKey fs k v) k' = getKey fs k' := by
  induction fs with
  | nil =>
    simp only [setKey, getKey]
    rw [if_neg (fun hh : k = k' => h hh.symm)]
  | cons hd tl ih =>
    obtain ⟨k0, w⟩ := hd
    by_cases h0 : k0 = k
    · subst h0
      have hk : ¬ k0 = k' := fun hh => h (hh.symm)
      simp [setKey, getKey, hk]
    · simp [setKey, getKey, h0]
      by_cases h1 : k0 = k' <;> simp [h1, ih]

theorem getKey_delKey_same (fs : List (String × J)) (k : String) :
    getKey (delKey fs k) k = none := by
  induction fs with
  | nil => simp [delKey, getKey]
  | cons hd tl ih =>
    obtain ⟨k0, w⟩ := hd
    by_cases h0 : k0 = k <;> simp [delKey, getKey, h0, ih]

theorem getKey_delKey_other (fs : List (String × J)) (k k' : String)
    (h : k' ≠ k) : getKey (delKey fs k) k' = getKey fs k' := by
  induction fs with
  | nil => simp [delKey]
  | cons hd tl ih =>
    obtain ⟨k0, w⟩ := hd
    by_cases h0 : k0 = k
    · subst h0
      have hk : ¬ k0 = k' := fun hh => h (hh.symm)
      simp [delKey, getKey, hk, ih]
    · simp [delKey, getKey, h0]
      by_cases h1 : k0 = k' <;> simp [h1, ih]

theorem mergeAxis_comm (a b : Nat × Nat) : mergeAxis a b = mergeAxis b a := by
  by_cases h1 : a = (0, 0) <;> by_cases h2 : b = (0, 0)
  · rw [h1, h2]
  · simp only [mergeAxis, if_pos h1, if_neg h2]
  · simp only [mergeAxis, if_neg h1, if_pos h2]
  · simp only [mergeAxis, if_neg h1, if_neg h2, Prod.mk.injEq]
    constructor <;> omega

theorem mergeAxis_zero_right (a : Nat × Nat) : mergeAxis a (0, 0) = a := by
  by_cases h : a = (0, 0)
  · rw [mergeAxis, if_pos h, h]
  · rw [mergeAxis, if_neg h, if_pos rfl]

/-- Counterexample to claim C3: the claimed unconditional per-axis rule
(min of the two minimums, max of the two maximums) fails on ill-formed
ranges, which the program produces - _get_array_range of a mapping with no
items list and no bounds is (1, 0) - and _merge_dim takes min/max over all
four bounds, so merging (1, 0) with (2, 4) gives (0, 4), not the claimed
(1, 4). -/
theorem c3_counterexample :
    getArrayRange (J.obj []) = ((1 : Int), (0 : Int)) ∧
    mergeAxis (1, 0) (2, 4) = (0, 4) ∧
    ((1 : Nat), (0 : Nat)) ≠ (0, 0) ∧
    ((2 : Nat), (4 : Nat)) ≠ (0, 0) ∧
    (min 1 2, max 0 4) = ((1 : Nat), (4 : Nat)) :=
  ⟨rfl, by decide, by decide, by decide, by decide⟩

/-- Claim C3 as amended: lib.py _merge_dim is commutative; ((1,1),(0,0))
merged with ((2,4),(0,0)) gives ((1,4),(0,0)); merging with the degenerate
((0,0),(0,0)) returns the other operand unchanged; each axis is merged
independently, a (0,0) axis taking the other side's range; and otherwise
the merged axis is the (minimum, maximum) over all four bounds - which
coincides with (min of the two minimums, max of the two maximums) exactly
when both ranges are well-formed (minimum at most maximum). -/
theorem c3_amended :
    (∀ d1 d2, mergeDim d1 d2 = mergeDim d2 d1) ∧
    mergeDim ((1, 1), (0, 0)) ((2, 4), (0, 0)) = ((1, 4), (0, 0)) ∧
    (∀ d, mergeDim d ((0, 0), (0, 0)) = d ∧ mergeDim ((0, 0), (0, 0)) d = d) ∧
    (∀ d1 d2, mergeDim d1 d2 = (mergeAxis d1.1 d2.1, mergeAxis d1.2 d2.2)) ∧
    (∀ a b : Nat × Nat, a = (0, 0) → mergeAxis a b = b) ∧
    (∀ a b : Nat × Nat, b = (0, 0) → mergeAxis a b = a) ∧
    (∀ a b : Nat × Nat, a ≠ (0, 0) → b ≠ (0, 0) →
      mergeAxis a b = (min (min (min a.1 a.2) b.1) b.2,
        max (max (max a.1 a.2) b.1) b.2)) ∧
    (∀ a b : Nat × Nat, a ≠ (0, 0) → b ≠ (0, 0) → a.1 ≤ a.2 → b.1 ≤ b.2 →
      mergeAxis a b = (min a.1 b.1, max a.2 b.2)) := by
  refine ⟨?_, by decide, ?_, fun d1 d2 => rfl, ?_, ?_, ?_, ?_⟩
  · intro d1 d2
    rw [mergeDim, mergeDim, mergeAxis_comm, mergeAxis_comm d1.2]
  · intro d
    constructor
    · rw [mergeDim, mergeAxis_zero_right, mergeAxis_zero_right]
    · rw [mergeDim, mergeAxis_comm, mergeAxis_comm ((0 : Nat), (0 : Nat)),
        mergeAxis_zero_right, mergeAxis_zero_right]
  · intro a b ha
    by_cases hb : b = (0, 0)
    · rw [mergeAxis, if_pos ha]
    · rw [mergeAxis, if_pos ha]
  · intro a b hb
    rw [hb, mergeAxis_zero_right]
  · intro a b ha hb
    rw [mergeAxis, if_neg ha, if_neg hb]
  · intro a b ha hb h1 h2
    rw [mergeAxis, if_neg ha, if_neg hb]
    simp only [Prod.mk.injEq]
    constructor <;> omega

/-- Witness for c3_amended: the quantified parts instantiated at concrete
dimensions, an ill-formed and a well-formed merge included, with every
hypothesis discharged. -/
theorem c3_amended_witness :
    mergeDim ((1, 1), (0, 0)) ((2, 4), (0, 0)) =
      mergeDim ((2, 4), (0, 0)) ((1, 1), (0, 0)) ∧
    mergeDim ((3, 5), (2, 2)) ((0, 0), (0, 0)) = ((3, 5), (2, 2)) ∧
    mergeAxis (1, 0) (2, 4) =
      (min (min (min 1 0) 2) 4, max (max (max 1 0) 2) 4) ∧
    mergeAxis (1, 3) (2, 7) = (min 1 2, max 3 7) := by
  refine ⟨c3_amended.1 _ _, (c3_amended.2.2.1 _).1, ?_, ?_⟩
  · exact c3_amended.2.2.2.2.2.2.1 (1, 0) (2, 4) (by decide) (by decide)
  · exact c3_amended.2.2.2.2.2.2.2 (1, 3) (2, 7) (by decide) (by decide)
      (by decide) (by decide)

/-- Evaluation of the fixup_vals pipeline on a bare integer const leaf
under any non-reg property name. -/
theorem fixupValsF_const_eval (p : String) (c : Int) (hp : p ≠ "reg") :
    fixupValsF 5 p [("const", J.i c)] = some (constNormFields c) := by
  have hdel : delKey [("const", J.i c)] "description" = [("const", J.i c)] := rfl
  have hreg : fixupRegSchema p [("const", J.i c)] = [("const", J.i c)] := by
    rw [fixupRegSchema, if_pos hp]
  have hrem : removeEmptyItemsF 5 [("const", J.i c)] = some [("const", J.i c)] := rfl
  have hmat : fixupIntMatrix p [("const", J.i c)] = [("const", J.i c)] := rfl
  have hget : getKey [("const", J.i c)] "allOf" = none := rfl
  have hcore : minMaxToMatrixCore 5 [("const", J.i c)] = some [("const", J.i c)] := rfl
  have hitm : itemsToMatrixCore [("const", J.i c)] = [("const", J.i c)] := rfl
  have hstr : fixupStringToArray [("const", J.i c)] = [("const", J.i c)] := rfl
  have hscal : fixupScalarToArray [("const", J.i c)] =
      [("items", J.arr [J.obj [("items", J.arr [J.obj [("const", J.i c)]])]])] := rfl
  have hsize : fixupItemsSizeF 5 (J.obj
      [("items", J.arr [J.obj [("items", J.arr [J.obj [("const", J.i c)]])]])]) =
      some (J.obj (constNormFields c)) := rfl
  have h1909 : fixupSchemaTo201909 (constNormFields c) = constNormFields c := rfl
  cases hia : isIntArraySchema p [("const", J.i c)] with
  | false =>
    simp [fixupValsF, fixupIntArrayMinMaxToMatrix, fixupIntArrayItemsToMatrix,
      hdel, hreg, hrem, hmat, hget, hcore, hitm, hstr, hscal, hsize, h1909, hia]
  | true =>
    simp [fixupValsF, fixupIntArrayMinMaxToMatrix, fixupIntArrayItemsToMatrix,
      hdel, hreg, hrem, hmat, hget, hcore, hitm, hstr, hscal, hsize, h1909, hia]

/-- Counterexample to claim C2: on the subschema const 5 under property
name foo, fixup_vals does not produce the claimed object - the actual
result carries type/minItems/maxItems on the inner items node as well, so
it differs from the claimed object under Python equality (the reflexive
comparisons at the same fuel show the false is not a fuel artifact). -/
theorem c2_counterexample :
    fixupValsF 5 "foo" [("const", J.i 5)] = some c2ActualFields ∧
    pyEqF 8 (J.obj c2ActualFields) c2ClaimedResult = false ∧
    pyEqF 8 (J.obj c2ActualFields) (J.obj c2ActualFields) = true ∧
    pyEqF 8 c2ClaimedResult c2ClaimedResult = true := by
  exact ⟨rfl, rfl, rfl, rfl⟩

/-- Claim C2 as amended: for every property name other than reg, the
pipeline turns const 5 into the doubly nested array form with type array
and one-element bounds at both nesting levels. -/
theorem c2_amended (p : String) (hp : p ≠ "reg") :
    fixupValsF 5 p [("const", J.i 5)] = some c2ActualFields :=
  fixupValsF_const_eval p 5 hp

/-- Witness for C2 as amended, at the property name foo. -/
theorem c2_amended_witness :
    fixupValsF 5 "foo" [("const", J.i 5)] = some c2ActualFields :=
  c2_amended "foo" (by decide)

/-- Evaluation of the fixup_vals pipeline on a bare integer const leaf
under the property name reg: _fixup_reg_schema wraps it first, and the
result coincides with the generic scalar promotion. -/
theorem fixupValsF_const_reg (c : Int) :
    fixupValsF 5 "reg" [("const", J.i c)] = some (constNormFields c) := by
  have hdel : delKey [("const", J.i c)] "description" = [("const", J.i c)] := rfl
  have hreg : fixupRegSchema "reg" [("const", J.i c)] =
      [("items", J.arr [J.obj [("items", J.arr [J.obj [("const", J.i c)]])]])] := rfl
  have hrem : removeEmptyItemsF 5
      [("items", J.arr [J.obj [("items", J.arr [J.obj [("const", J.i c)]])]])] =
      some [("items", J.arr [J.obj [("items", J.arr [J.obj [("const", J.i c)]])]])] := rfl
  have hmat : fixupIntMatrix "reg"
      [("items", J.arr [J.obj [("items", J.arr [J.obj [("const", J.i c)]])]])] =
      [("items", J.arr [J.obj [("items", J.arr [J.obj [("const", J.i c)]])]])] := rfl
  have hia : isIntArraySchema "reg"
      [("items", J.arr [J.obj [("items", J.arr [J.obj [("const", J.i c)]])]])] = false := rfl
  have hstr : fixupStringToArray
      [("items", J.arr [J.obj [("items", J.arr [J.obj [("const", J.i c)]])]])] =
      [("items", J.arr [J.obj [("items", J.arr [J.obj [("const", J.i c)]])]])] := rfl
  have hscal : fixupScalarToArray
      [("items", J.arr [J.obj [("items", J.arr [J.obj [("const", J.i c)]])]])] =
      [("items", J.arr [J.obj [("items", J.arr [J.obj [("const", J.i c)]])]])] := rfl
  have hsize : fixupItemsSizeF 5 (J.obj
      [("items", J.arr [J.obj [("items", J.arr [J.obj [("const", J.i c)]])]])]) =
      some (J.obj (constNormFields c)) := rfl
  have h1909 : fixupSchemaTo201909 (constNormFields c) = constNormFields c := rfl
  simp [fixupValsF, fixupIntArrayMinMaxToMatrix, fixupIntArrayItemsToMatrix,
    hdel, hreg, hrem, hmat, hia, hstr, hscal, hsize, h1909]

/-- Evaluation of walk_properties on a bare integer const leaf under any
property name (reg reaches the same normal form through _fixup_reg_schema). -/
theorem walkPropertiesF_const_eval (p : String) (c : Int) :
    walkPropertiesF 6 p (J.obj [("const", J.i c)]) = some (J.obj (constNormFields c)) := by
  have hA : ∀ f, walkCondAux f [("const", J.i c)] "allOf" =
      some [("const", J.i c)] := fun f => rfl
  have hO : ∀ f, walkCondAux f [("const", J.i c)] "oneOf" =
      some [("const", J.i c)] := fun f => rfl
  have hAn : ∀ f, walkCondAux f [("const", J.i c)] "anyOf" =
      some [("const", J.i c)] := fun f => rfl
  have hT : ∀ f, walkThenAux f [("const", J.i c)] =
      some [("const", J.i c)] := fun f => rfl
  show walkPropertiesF (5 + 1) p (J.obj [("const", J.i c)]) = _
  by_cases hr : p = "reg"
  · subst hr
    simp [walkPropertiesF, hA, hO, hAn, hT, fixupValsF_const_reg c]
  · simp [walkPropertiesF, hA, hO, hAn, hT, fixupValsF_const_eval p c hr]

/-- The integer-leaf normal form is a fixed point of walk_properties for
every property name outside the known variable-matrix set. -/
theorem walkPropertiesF_norm_fixed (p : String) (c : Int) (hp : p ≠ "fsl,pins") :
    walkPropertiesF 6 p (J.obj (constNormFields c)) = some (J.obj (constNormFields c)) := by
  have hk : knownVariableMatrixProps p = false := by
    simp [knownVariableMatrixProps, hp]
  have hdel : delKey (constNormFields c) "description" = constNormFields c := rfl
  have hreg : fixupRegSchema p (constNormFields c) = constNormFields c := by
    by_cases hr : p = "reg"
    · subst hr
      rfl
    · rw [fixupRegSchema, if_pos hr]
  have hrem : removeEmptyItemsF 5 (constNormFields c) = some (constNormFields c) := rfl
  have hism : isMatrixSchema (constNormFields c) = true := rfl
  have hintmat : fixupIntMatrix p (constNormFields c) = constNormFields c := by
    simp [fixupIntMatrix, hism, hk, getArrayRangeObj, getArrayRange, intOr,
      getKey, constNormFields]
  have hget : getKey (constNormFields c) "allOf" = none := rfl
  have hcore : minMaxToMatrixCore 5 (constNormFields c) = some (constNormFields c) := rfl
  have hitm : itemsToMatrixCore (constNormFields c) = constNormFields c := rfl
  have hstr : fixupStringToArray (constNormFields c) = constNormFields c := rfl
  have hscal : fixupScalarToArray (constNormFields c) = constNormFields c := rfl
  have hsize : fixupItemsSizeF 5 (J.obj (constNormFields c)) =
      some (J.obj (constNormFields c)) := rfl
  have h1909 : fixupSchemaTo201909 (constNormFields c) = constNormFields c := rfl
  have hvals : fixupValsF 5 p (constNormFields c) = some (constNormFields c) := by
    cases hia : isIntArraySchema p (constNormFields c) with
    | false =>
      simp [fixupValsF, fixupIntArrayMinMaxToMatrix, fixupIntArrayItemsToMatrix,
        hdel, hreg, hrem, hintmat, hget, hcore, hitm, hstr, hscal, hsize, h1909, hia]
    | true =>
      simp [fixupValsF, fixupIntArrayMinMaxToMatrix, fixupIntArrayItemsToMatrix,
        hdel, hreg, hrem, hintmat, hget, hcore, hitm, hstr, hscal, hsize, h1909, hia]
  have hA : ∀ f, walkCondAux f (constNormFields c) "allOf" =
      some (constNormFields c) := fun f => rfl
  have hO : ∀ f, walkCondAux f (constNormFields c) "oneOf" =
      some (constNormFields c) := fun f => rfl
  have hAn : ∀ f, walkCondAux f (constNormFields c) "anyOf" =
      some (constNormFields c) := fun f => rfl
  have hT : ∀ f, walkThenAux f (constNormFields c) =
      some (constNormFields c) := fun f => rfl
  show walkPropertiesF (5 + 1) p (J.obj (constNormFields c)) = _
  simp [walkPropertiesF, hA, hO, hAn, hT, hvals]

/-- Counterexample to claim C7: the per-property pipeline is not
idempotent.  On the int-array subschema with items enum [1, 2] and no
bounds, the first pass produces a nested array form and the second pass
collapses it to a bare type array (the reflexive comparisons at the same
fuel show the false is not a fuel artifact). -/
theorem c7_counterexample :
    walkPropertiesF 6 "foo" c7Input = some c7Once ∧
    walkPropertiesF 6 "foo" c7Once = some c7Twice ∧
    pyEqF 8 c7Twice c7Once = false ∧
    pyEqF 8 c7Once c7Once = true ∧
    pyEqF 8 c7Twice c7Twice = true := by
  exact ⟨rfl, rfl, rfl, rfl, rfl⟩

/-- Claim C7 as amended: the pipeline is idempotent on scalar integer
leaves - for every property name outside the known variable-matrix set,
the normal form of a const integer leaf is a fixed point of a second
walk_properties application. -/
theorem c7_amended (p : String) (hp : p ≠ "fsl,pins") (c : Int) (r : J)
    (h : walkPropertiesF 6 p (J.obj [("const", J.i c)]) = some r) :
    walkPropertiesF 6 p r = some r := by
  rw [walkPropertiesF_const_eval p c] at h
  obtain rfl : r = J.obj (constNormFields c) := by
    cases h
    rfl
  exact walkPropertiesF_norm_fixed p c hp

/-- Witness for C7 as amended: the property name foo and the const 5 leaf,
with the first-pass hypothesis discharged by computation. -/
theorem c7_amended_witness :
    walkPropertiesF 6 "foo" (J.obj (constNormFields 5)) =
      some (J.obj (constNormFields 5)) :=
  c7_amended "foo" (by decide) 5 (J.obj (constNormFields 5)) rfl

/-- Counterexample to the second half of claim C6: for the known
variable-matrix property fsl,pins, the shape is not kept - _fixup_int_matrix
drops items for it exactly as for anonymous variable matrices. -/
theorem c6_counterexample :
    fixupIntMatrix "fsl,pins" c6Matrix = [("type", J.s "array")] ∧
    hasKey c6Matrix "items" = true ∧
    getKey [("type", J.s "array")] "items" = none := by
  exact ⟨rfl, rfl, rfl⟩

/-- Claim C6 as amended: a matrix subschema whose outer and inner
dimensions are both variable loses items/minItems/maxItems and becomes an
untyped array, for every property name; and a property name in the known
variable-matrix set loses its shape unconditionally, fixed dimensions or
not (rather than keeping it as the claim stated). -/
theorem c6_amended :
    (∀ (p : String) (fs : List (String × J)), isMatrixSchema fs = true →
      (getArrayRangeObj fs).1 ≠ (getArrayRangeObj fs).2 →
      (getArrayRange ((getKey fs "items").getD (J.obj []))).1 ≠
        (getArrayRange ((getKey fs "items").getD (J.obj []))).2 →
      fixupIntMatrix p fs = dropMatrixShape fs) ∧
    (∀ fs : List (String × J), isMatrixSchema fs = true →
      fixupIntMatrix "fsl,pins" fs = dropMatrixShape fs) := by
  constructor
  · intro p fs hm h1 h2
    simp [fixupIntMatrix, hm, h1, h2, dropMatrixShape]
  · intro fs hm
    simp [fixupIntMatrix, hm, knownVariableMatrixProps, dropMatrixShape]

/-- Witness for C6 as amended: both conjuncts at the concrete variable
matrix, under an anonymous name and under fsl,pins. -/
theorem c6_amended_witness :
    fixupIntMatrix "foo" c6Matrix = dropMatrixShape c6Matrix ∧
    fixupIntMatrix "fsl,pins" c6Matrix = dropMatrixShape c6Matrix := by
  constructor
  · exact c6_amended.1 "foo" c6Matrix rfl (by decide) (by decide)
  · exact c6_amended.2 c6Matrix rfl

theorem getKey_setKey (fs : List (String × J)) (k k' : String) (v : J) :
    getKey (setKey fs k v) k' = if k' = k then some v else getKey fs k' := by
  by_cases h : k' = k
  · subst h
    simp [getKey_setKey_same]
  · simp [h, getKey_setKey_other fs k k' v h]

theorem getKey_delKey (fs : List (String × J)) (k k' : String) :
    getKey (delKey fs k) k' = if k' = k then none else getKey fs k' := by
  by_cases h : k' = k
  · subst h
    simp [getKey_delKey_same]
  · simp [h, getKey_delKey_other fs k k' h]

theorem hasKey_setKey (fs : List (String × J)) (k k' : String) (v : J) :
    hasKey (setKey fs k v) k' = if k' = k then true else hasKey fs k' := by
  simp [hasKey, getKey_setKey]
  by_cases h : k' = k <;> simp [h]

theorem hasKey_delKey (fs : List (String × J)) (k k' : String) :
    hasKey (delKey fs k) k' = if k' = k then false else hasKey fs k' := by
  simp [hasKey, getKey_delKey]
  by_cases h : k' = k <;> simp [h]

theorem hasKey_setKey_same (fs : List (String × J)) (k : String) (v : J) :
    hasKey (setKey fs k v) k = true := by
  simp [hasKey, getKey_setKey_same]

theorem hasKey_setKey_other (fs : List (String × J)) (k k' : String) (v : J)
    (h : k' ≠ k) : hasKey (setKey fs k v) k' = hasKey fs k' := by
  simp [hasKey, getKey_setKey_other fs k k' v h]

theorem hasKey_delKey_other (fs : List (String × J)) (k k' : String)
    (h : k' ≠ k) : hasKey (delKey fs k) k' = hasKey fs k' := by
  simp [hasKey, getKey_delKey_other fs k k' h]

theorem mapMO_mem {α β : Type} {f : α → Option β} :
    ∀ {l : List α} {l' : List β}, mapMO f l = some l' →
      ∀ y ∈ l', ∃ x ∈ l, f x = some y := by
  intro l
  induction l with
  | nil =>
    intro l' h y hy
    simp [mapMO] at h
    subst h
    simp at hy
  | cons x xs ih =>
    intro l' h y hy
    rw [mapMO] at h
    cases hfx : f x with
    | none => rw [hfx] at h; simp at h
    | some y0 =>
      rw [hfx] at h
      cases hrest : mapMO f xs with
      | none => rw [hrest] at h; simp at h
      | some ys =>
        rw [hrest] at h
        simp at h
        subst h
        rcases List.mem_cons.mp hy with h1 | h2
        · exact ⟨x, List.mem_cons_self x xs, h1 ▸ hfx⟩
        · obtain ⟨x0, hx0, hfx0⟩ := ih hrest y h2
          exact ⟨x0, List.mem_cons_of_mem x hx0, hfx0⟩

/-- _fixup_items_size preserves whether a value is a sequence. -/
theorem fixupItemsSizeF_isArr :
    ∀ (n : Nat) (x y : J), fixupItemsSizeF n x = some y → isArrJ y = isArrJ x := by
  intro n x y h
  cases n with
  | zero => simp [fixupItemsSizeF] at h
  | succ n =>
    cases x with
    | arr l =>
      rw [fixupItemsSizeF] at h
      cases hml : mapMO (fixupItemsSizeF n) l with
      | none => rw [hml] at h; simp at h
      | some l' => rw [hml] at h; simp at h; subst h; rfl
    | obj fs =>
      rw [fixupItemsSizeF] at h
      split at h
      · cases hit : fixupItemsSizeF n _ with
        | none => rw [hit] at h; simp at h
        | some it' => rw [hit] at h; simp at h; subst h; rfl
      · split at h
        · simp at h; subst h; rfl
        · split at h
          · simp at h; subst h; rfl
          · simp at h; subst h; rfl
    | null => simp [fixupItemsSizeF] at h; subst h; rfl
    | b bv => simp [fixupItemsSizeF] at h; subst h; rfl
    | i iv => simp [fixupItemsSizeF] at h; subst h; rfl
    | s sv => simp [fixupItemsSizeF] at h; subst h; rfl

/-- Whenever _fixup_items_size completes, its result satisfies the actual
size invariant at every checking depth. -/
theorem itemsSizeInv_holds :
    ∀ (n : Nat) (j r : J), fixupItemsSizeF n j = some r →
      ∀ m, itemsSizeInv m r = true := by
  intro n
  induction n with
  | zero => intro j r h m; simp [fixupItemsSizeF] at h
  | succ n ih =>
    intro j r h m
    cases m with
    | zero => rfl
    | succ m =>
      cases j with
      | arr l =>
        rw [fixupItemsSizeF] at h
        cases hml : mapMO (fixupItemsSizeF n) l with
        | none => rw [hml] at h; simp at h
        | some l' =>
          rw [hml] at h
          simp at h
          subst h
          rw [itemsSizeInv]
          rw [List.all_eq_true]
          intro x hx
          obtain ⟨x0, _, hfx⟩ := mapMO_mem hml x hx
          exact ih x0 x hfx m
      | obj fs =>
        rw [fixupItemsSizeF] at h
        split at h
        · rename_i it hgi
          cases hit : fixupItemsSizeF n it with
          | none => rw [hit] at h; simp at h
          | some it' =>
            rw [hit] at h
            simp at h
            subst h
            have hihs := ih it it' hit m
            have hsh := fixupItemsSizeF_isArr n it it' hit
            cases it with
            | arr l =>
              by_cases hmi : hasKey (setKey (delKey fs "description") "type"
                  (J.s "array")) "minItems" = true
              all_goals by_cases hma : hasKey (if hasKey (setKey (delKey fs
                  "description") "type" (J.s "array")) "minItems" = true then
                  setKey (delKey fs "description") "type" (J.s "array")
                else setKey (setKey (delKey fs "description") "type"
                  (J.s "array")) "minItems" (J.i l.length)) "maxItems" = true
              all_goals cases it' <;> simp_all [itemsSizeInv, getKey_setKey,
                hasKey_setKey, isArrayTypeVal, isArrJ]
            | obj ifs =>
              cases it' <;> simp_all [itemsSizeInv, getKey_setKey,
                hasKey_setKey, isArrayTypeVal, isArrJ]
            | null =>
              cases it' <;> simp_all [itemsSizeInv, getKey_setKey,
                hasKey_setKey, isArrayTypeVal, isArrJ]
            | b bv =>
              cases it' <;> simp_all [itemsSizeInv, getKey_setKey,
                hasKey_setKey, isArrayTypeVal, isArrJ]
            | i iv =>
              cases it' <;> simp_all [itemsSizeInv, getKey_setKey,
                hasKey_setKey, isArrayTypeVal, isArrJ]
            | s sv =>
              cases it' <;> simp_all [itemsSizeInv, getKey_setKey,
                hasKey_setKey, isArrayTypeVal, isArrJ]
        · rename_i hgi
          split at h
          · rename_i hcond
            simp at h
            subst h
            simp_all [itemsSizeInv, getKey_setKey, hasKey_setKey]
          · split at h
            · rename_i hcond1 hcond2
              simp at h
              subst h
              simp_all [itemsSizeInv, getKey_setKey, hasKey_setKey]
            · rename_i hcond1 hcond2
              simp at h
              subst h
              simp_all [itemsSizeInv, getKey_setKey, hasKey_setKey]
              cases hA : hasKey (delKey fs "description") "minItems" <;>
                cases hB : hasKey (delKey fs "description") "maxItems" <;>
                  simp_all
      | null => simp [fixupItemsSizeF] at h; subst h; rfl
      | b bv => simp [fixupItemsSizeF] at h; subst h; rfl
      | i iv => simp [fixupItemsSizeF] at h; subst h; rfl
      | s sv => simp [fixupItemsSizeF] at h; subst h; rfl

/-- Counterexample to claim C5: a mapping whose items value is a mapping
and which carries no bound at all keeps items without gaining minItems or
maxItems, so "every visited mapping with items has both bounds" fails; the
claimed invariant does hold on a fully promoted scalar, so the checker is
not vacuous. -/
theorem c5_counterexample :
    fixupItemsSizeF 3 (J.obj [("items", J.obj [])]) =
      some (J.obj [("items", J.obj []), ("type", J.s "array")]) ∧
    c5ClaimCheck 3 (J.obj [("items", J.obj []), ("type", J.s "array")]) = false ∧
    c5ClaimCheck 6 (J.obj (constNormFields 5)) = true := by
  exact ⟨rfl, rfl, rfl⟩

/-- Claim C5 as amended: after _fixup_items_size completes, every visited
mapping with items has type array, and has both bounds when items is a
fixed-length sequence (derived from its length when missing); a visited
mapping without items that carried exactly one bound gets the other copied
from it; nodes already carrying both bounds keep them unchanged.  The
conjuncts about the bound values are stated for the top-level mapping; the
traversal applies the same function at every visited node. -/
theorem c5_amended :
    (∀ (n : Nat) (j r : J), fixupItemsSizeF n j = some r →
      ∀ m, itemsSizeInv m r = true) ∧
    (∀ (n : Nat) (fs : List (String × J)) (r : J),
      fixupItemsSizeF n (J.obj fs) = some r →
      getKey (delKey fs "description") "items" = none →
      hasKey (delKey fs "description") "maxItems" = true →
      hasKey (delKey fs "description") "minItems" = false →
      r = J.obj (setKey (delKey fs "description") "minItems"
        ((getKey (delKey fs "description") "maxItems").getD J.null))) ∧
    (∀ (n : Nat) (fs : List (String × J)) (r : J),
      fixupItemsSizeF n (J.obj fs) = some r →
      getKey (delKey fs "description") "items" = none →
      hasKey (delKey fs "description") "minItems" = true →
      hasKey (delKey fs "description") "maxItems" = false →
      r = J.obj (setKey (delKey fs "description") "maxItems"
        ((getKey (delKey fs "description") "minItems").getD J.null))) ∧
    (∀ (n : Nat) (fs : List (String × J)) (r : J) (l : List J),
      fixupItemsSizeF n (J.obj fs) = some r →
      getKey (delKey fs "description") "items" = some (J.arr l) →
      (hasKey (delKey fs "description") "minItems" = false →
        getKey (objFields r) "minItems" = some (J.i l.length)) ∧
      (hasKey (delKey fs "description") "maxItems" = false →
        getKey (objFields r) "maxItems" = some (J.i l.length))) ∧
    (∀ (n : Nat) (fs : List (String × J)) (r : J),
      fixupItemsSizeF n (J.obj fs) = some r →
      hasKey (delKey fs "description") "minItems" = true →
      hasKey (delKey fs "description") "maxItems" = true →
      getKey (objFields r) "minItems" =
        getKey (delKey fs "description") "minItems" ∧
      getKey (objFields r) "maxItems" =
        getKey (delKey fs "description") "maxItems") := by
  refine ⟨itemsSizeInv_holds, ?_, ?_, ?_, ?_⟩
  · intro n fs r h h1 h2 h3
    cases n with
    | zero => simp [fixupItemsSizeF] at h
    | succ n =>
      rw [fixupItemsSizeF] at h
      rw [h1] at h
      simp [h2, h3] at h
      exact h.symm
  · intro n fs r h h1 h2 h3
    cases n with
    | zero => simp [fixupItemsSizeF] at h
    | succ n =>
      rw [fixupItemsSizeF] at h
      rw [h1] at h
      simp [h2, h3] at h
      exact h.symm
  · intro n fs r l h h1
    cases n with
    | zero => simp [fixupItemsSizeF] at h
    | succ n =>
      rw [fixupItemsSizeF] at h
      rw [h1] at h
      dsimp only at h
      cases hit : fixupItemsSizeF n (J.arr l) with
      | none => rw [hit] at h; simp at h
      | some it' =>
        rw [hit] at h
        simp at h
        constructor
        · intro hmi
          subst h
          by_cases hma : hasKey (delKey fs "description") "maxItems" = true <;>
            simp_all [objFields, getKey_setKey, hasKey_setKey]
        · intro hma
          subst h
          by_cases hmi : hasKey (delKey fs "description") "minItems" = true <;>
            simp_all [objFields, getKey_setKey, hasKey_setKey]
  · intro n fs r h h1 h2
    cases n with
    | zero => simp [fixupItemsSizeF] at h
    | succ n =>
      rw [fixupItemsSizeF] at h
      split at h
      · rename_i it hgi
        cases hit : fixupItemsSizeF n it with
        | none => rw [hit] at h; simp at h
        | some it' =>
          rw [hit] at h
          simp at h
          subst h
          cases it <;> simp_all [objFields, getKey_setKey, hasKey_setKey]
      · rename_i hgi
        split at h
        · simp_all
        · split at h
          · simp_all
          · simp at h
            subst h
            simp [objFields]

/-- Counterexample to claim C1: add_select_schema does not collect only the
enum and const strings - the pattern value ^x also lands in the selector's
contains enum, so the derived selector differs from the claimed one (the
reflexive comparisons at the same fuel show the false is not a fuel
artifact). -/
theorem c1_counterexample :
    addSelectSchemaF 4 c1Doc =
      some (setKey c1Doc "select" (mkSelect ["^x", "v,a"])) ∧
    pyEqF 10 (mkSelect ["^x", "v,a"]) (mkSelect ["v,a"]) = false ∧
    pyEqF 10 (mkSelect ["^x", "v,a"]) (mkSelect ["^x", "v,a"]) = true ∧
    pyEqF 10 (mkSelect ["v,a"]) (mkSelect ["v,a"]) = true := by
  exact ⟨rfl, rfl, rfl, rfl⟩

/-- Claim C1 as amended: for a document without select whose properties
carry compatible, add_select_schema collects enum elements, stringified
const values and pattern values anywhere inside the compatible constraint,
deduplicates, removes syscon and simple-mfd, and when strings remain sets
select to the contains/enum selector over them, sorted; on the spec's
concrete example the enum is exactly v,a and v,b with syscon excluded. -/
theorem c1_amended :
    (∀ (n : Nat) (fs props : List (String × J)) (compatSch : J)
      (cs : List String),
      hasKey fs "select" = false →
      getKey fs "properties" = some (J.obj props) →
      getKey props "compatible" = some compatSch →
      extractNodeCompatiblesF n compatSch = some cs →
      cs.isEmpty = false →
      ((cs.filter (fun sv => sv ≠ "syscon")).filter
        (fun sv => sv ≠ "simple-mfd")).isEmpty = false →
      addSelectSchemaF n fs = some (setKey fs "select"
        (mkSelect (sortStrings ((cs.filter (fun sv => sv ≠ "syscon")).filter
          (fun sv => sv ≠ "simple-mfd")))))) ∧
    addSelectSchemaF 4
      [("properties", J.obj [("compatible",
        J.obj [("enum", J.arr [J.s "v,a", J.s "v,b"]),
               ("const", J.s "syscon")])])] =
      some (setKey
        [("properties", J.obj [("compatible",
          J.obj [("enum", J.arr [J.s "v,a", J.s "v,b"]),
                 ("const", J.s "syscon")])])]
        "select" (mkSelect ["v,a", "v,b"])) := by
  constructor
  · intro n fs props compatSch cs h1 h2 h3 h4 h5 h6
    rw [addSelectSchemaF]
    simp at h5 h6
    simp [h1, h2, h3, h4, h5, h6]
  · rfl

/-- Witness for C1 as amended: the first conjunct instantiated at the
pattern-and-enum document, every hypothesis discharged by computation. -/
theorem c1_amended_witness :
    addSelectSchemaF 4 c1Doc =
      some (setKey c1Doc "select" (mkSelect (sortStrings
        (((["v,a", "^x"] : List String).filter (fun sv => sv ≠ "syscon")).filter
          (fun sv => sv ≠ "simple-mfd"))))) :=
  c1_amended.1 4 c1Doc
    [("compatible", J.obj [("enum", J.arr [J.s "v,a"]), ("pattern", J.s "^x")])]
    (J.obj [("enum", J.arr [J.s "v,a"]), ("pattern", J.s "^x")])
    ["v,a", "^x"] rfl rfl rfl rfl rfl rfl

theorem countStr_removeFirst (R : List J) (sv : String) :
    countStr (removeFirst R sv) sv = countStr R sv - 1 := by
  induction R with
  | nil => rfl
  | cons x xs ih =>
    cases x with
    | s t =>
      by_cases ht : t = sv
      · subst ht
        simp [removeFirst, countStr]
      · simp [removeFirst, countStr, ht] at ih ⊢
        exact ih
    | null => simpa [removeFirst, countStr] using ih
    | b bv => simpa [removeFirst, countStr] using ih
    | i iv => simpa [removeFirst, countStr] using ih
    | arr l => simpa [removeFirst, countStr] using ih
    | obj fs => simpa [removeFirst, countStr] using ih

theorem mem_countStr_pos {R : List J} {sv : String} (h : J.s sv ∈ R) :
    0 < countStr R sv := by
  induction R with
  | nil => simp at h
  | cons x xs ih =>
    rcases List.mem_cons.mp h with h1 | h2
    · subst h1
      simp [countStr]
    · have hx := ih h2
      cases x with
      | s t =>
        by_cases ht : t = sv <;> simp [countStr, ht] at hx ⊢
        omega
      | null => simpa [countStr] using hx
      | b bv => simpa [countStr] using hx
      | i iv => simpa [countStr] using hx
      | arr l => simpa [countStr] using hx
      | obj fso => simpa [countStr] using hx

/-- Counterexample to claim C4: when properties already contain
interrupts-extended, fixup_interrupts returns before touching required, so
interrupts stays required and no oneOf alternative is installed. -/
theorem c4_counterexample :
    getKey (fixupInterrupts c4Doc) "required" = some (J.arr [J.s "interrupts"]) ∧
    hasKey (fixupInterrupts c4Doc) "oneOf" = false ∧
    hasKey (fixupInterrupts c4Doc) "allOf" = false := by
  exact ⟨rfl, rfl, rfl⟩

/-- Claim C4 as amended: for a schema whose properties declare interrupts
but not interrupts-extended, and whose required list contains interrupts
(once), fixup_interrupts copies the interrupts constraint to
interrupts-extended, removes interrupts from required, installs the oneOf
of the two required alternatives (under allOf when a oneOf already
existed), and the installed oneOf is satisfied by a node carrying only
interrupts-extended. -/
theorem c4_amended (fs props0 : List (String × J)) (intsSch : J) (R : List J)
    (h1 : getKey fs "properties" = some (J.obj props0))
    (h2 : getKey props0 "interrupts" = some intsSch)
    (h3 : hasKey props0 "interrupts-extended" = false)
    (h4 : getKey fs "required" = some (J.arr R))
    (h5 : J.s "interrupts" ∈ R)
    (h6 : countStr R "interrupts" = 1) :
    (∃ props', getKey (fixupInterrupts fs) "properties" = some (J.obj props') ∧
      getKey props' "interrupts-extended" = some intsSch) ∧
    getKey (fixupInterrupts fs) "required" =
      some (J.arr (removeFirst R "interrupts")) ∧
    J.s "interrupts" ∉ removeFirst R "interrupts" ∧
    (hasKey fs "oneOf" = false →
      getKey (fixupInterrupts fs) "oneOf" = some interruptsReqList) ∧
    (hasKey fs "oneOf" = true → getKey fs "allOf" = none →
      getKey (fixupInterrupts fs) "allOf" =
        some (J.arr [J.obj [("oneOf", interruptsReqList)]])) ∧
    (hasKey fs "oneOf" = true → ∀ al, getKey fs "allOf" = some (J.arr al) →
      getKey (fixupInterrupts fs) "allOf" =
        some (J.arr (al ++ [J.obj [("oneOf", interruptsReqList)]]))) ∧
    (∀ node : List (String × J), hasKey node "interrupts-extended" = true →
      hasKey node "interrupts" = false →
      oneOfReqSat [J.obj [("required", J.arr [J.s "interrupts"])],
        J.obj [("required", J.arr [J.s "interrupts-extended"])]] node = true) := by
  have hnotin : J.s "interrupts" ∉ removeFirst R "interrupts" := by
    intro hmem
    have hpos := mem_countStr_pos hmem
    rw [countStr_removeFirst, h6] at hpos
    omega
  have hki : hasKey props0 "interrupts" = true := by simp [hasKey, h2]
  have hany : R.any (fun x => match x with
      | J.s sv => sv = "interrupts"
      | _ => false) = true := by
    rw [List.any_eq_true]
    exact ⟨J.s "interrupts", h5, by simp⟩
  have hsat : ∀ node : List (String × J),
      hasKey node "interrupts-extended" = true →
      hasKey node "interrupts" = false →
      oneOfReqSat [J.obj [("required", J.arr [J.s "interrupts"])],
        J.obj [("required", J.arr [J.s "interrupts-extended"])]] node = true := by
    intro node hn1 hn2
    simp [oneOfReqSat, requiredSat, getKey, hn1, hn2]
  rw [fixupInterrupts, h1]
  by_cases hip : hasKey props0 "interrupt-parent" = true
  all_goals by_cases h1of : hasKey fs "oneOf" = true
  all_goals
    simp only [hki, hip, h1of, h2, h3, h4, hany, Bool.true_or, Bool.or_true,
      Bool.true_and, Bool.false_and, Bool.and_true, Bool.and_false,
      Bool.not_true, Bool.not_false, Bool.false_or, Bool.or_false,
      hasKey_setKey, getKey_setKey, if_true, if_false, reduceIte]
  all_goals
    cases hao : getKey fs "allOf" <;>
      simp_all [getKey_setKey, hasKey_setKey, interruptsReqList, hsat, hnotin]
  all_goals
    rename_i av
    cases av <;>
      simp_all [getKey_setKey, hasKey_setKey, interruptsReqList, hsat, hnotin]

/-- Witness for C4 as amended, at a concrete schema with a required
interrupts and no pre-existing oneOf. -/
theorem c4_amended_witness :
    getKey (fixupInterrupts c4WDoc) "required" = some (J.arr []) ∧
    getKey (fixupInterrupts c4WDoc) "oneOf" = some interruptsReqList := by
  have h := c4_amended c4WDoc [("interrupts", J.obj [("maxItems", J.i 1)])]
    (J.obj [("maxItems", J.i 1)]) [J.s "interrupts"] rfl rfl rfl rfl
    (by simp) rfl
  exact ⟨h.2.1, h.2.2.2.1 rfl⟩

/-- Witness for C5 as amended: every quantified conjunct instantiated at a
concrete run, each hypothesis discharged by computation. -/
theorem c5_amended_witness :
    itemsSizeInv 4 (J.obj [("maxItems", J.i 2), ("minItems", J.i 2)]) = true ∧
    J.obj [("maxItems", J.i 2), ("minItems", J.i 2)] =
      J.obj (setKey (delKey [("maxItems", J.i 2)] "description") "minItems"
        ((getKey (delKey [("maxItems", J.i 2)] "description") "maxItems").getD J.null)) ∧
    (getKey (objFields (J.obj [("items", J.arr [J.obj []]), ("type", J.s "array"),
        ("minItems", J.i 1), ("maxItems", J.i 1)])) "minItems" = some (J.i 1)) ∧
    (getKey (objFields (J.obj [("minItems", J.i 3), ("maxItems", J.i 7),
        ("type", J.s "array"), ("items", J.obj [])])) "minItems" = some (J.i 3)) := by
  refine ⟨c5_amended.1 1 (J.obj [("maxItems", J.i 2)]) _ rfl 4,
    c5_amended.2.1 1 [("maxItems", J.i 2)] _ rfl rfl rfl rfl, ?_, ?_⟩
  · exact (c5_amended.2.2.2.1 3 [("items", J.arr [J.obj []])] _ [J.obj []]
      rfl rfl).1 rfl
  · exact (c5_amended.2.2.2.2 3 [("minItems", J.i 3), ("maxItems", J.i 7),
      ("items", J.obj [])] _ rfl rfl rfl).1

/-- Claim C8: dispatch is independent per schema - a node matching no
selector is reported as failing to match any schema, a node whose every
matching schema is satisfied yields zero errors, and a node matching two
selectors with one satisfied and one violated yields exactly the violated
schema's errors (in either corpus order). -/
theorem foldr_errs_nil (node : J) :
    ∀ (schemas : List DTSchemaEntry),
      (∀ s ∈ schemas, s.sel node = true → s.errs node = []) →
      schemas.foldr
        (fun s acc => (if s.sel node then s.errs node else []) ++ acc) [] = [] := by
  intro schemas
  induction schemas with
  | nil => intro _; rfl
  | cons s rest ih =>
    intro h
    have htl := ih (fun x hx => h x (List.mem_cons_of_mem s hx))
    cases hsel : s.sel node with
    | false => simp [hsel, htl]
    | true => simp [hsel, htl, h s (List.mem_cons_self s rest) hsel]

theorem c8_dispatch :
    (∀ (schemas : List DTSchemaEntry) (node : J),
      (∀ s ∈ schemas, s.sel node = false) →
      checkNode schemas node = (false, []) ∧
      checkNodeReport schemas node = ["failed to match any schema"]) ∧
    (∀ (schemas : List DTSchemaEntry) (node : J),
      (∃ s ∈ schemas, s.sel node = true) →
      (∀ s ∈ schemas, s.sel node = true → s.errs node = []) →
      checkNode schemas node = (true, [])) ∧
    (∀ (s1 s2 : DTSchemaEntry) (node : J),
      s1.sel node = true → s1.errs node = [] → s2.sel node = true →
      checkNode [s1, s2] node = (true, s2.errs node) ∧
      checkNode [s2, s1] node = (true, s2.errs node)) := by
  refine ⟨?_, ?_, ?_⟩
  · intro schemas node h
    have hm : schemas.any (fun s => s.sel node) = false := by
      rw [List.any_eq_false]
      intro s hs
      simp [h s hs]
    have he := foldr_errs_nil node schemas
      (fun s hs hsel => absurd hsel (by simp [h s hs]))
    refine ⟨?_, ?_⟩
    · simp [checkNode, hm, he]
    · simp [checkNodeReport, checkNode, hm, he]
  · intro schemas node hex hall
    have hm : schemas.any (fun s => s.sel node) = true := by
      rw [List.any_eq_true]
      obtain ⟨s, hs, hsel⟩ := hex
      exact ⟨s, hs, hsel⟩
    have he := foldr_errs_nil node schemas hall
    simp [checkNode, hm, he]
  · intro s1 s2 node h1 h1e h2
    constructor
    · simp [checkNode, h1, h2, h1e]
    · simp [checkNode, h1, h2, h1e]

/-- Witness for C8: a two-schema corpus over concrete nodes - the
unmatched node is reported, the doubly matched node gets exactly the
violated schema's error. -/
theorem c8_dispatch_witness :
    checkNodeReport [c8GoodSchema, c8BadSchema] (J.obj []) =
      ["failed to match any schema"] ∧
    checkNode [c8GoodSchema] (J.obj [("a", J.null)]) = (true, []) ∧
    checkNode [c8GoodSchema, c8BadSchema] (J.obj [("a", J.null)]) =
      (true, ["violated"]) := by
  refine ⟨(c8_dispatch.1 _ _ ?_).2, c8_dispatch.2.1 _ _ ?_ ?_, ?_⟩
  · intro s hs
    simp at hs
    rcases hs with rfl | rfl
    · rfl
    · rfl
  · exact ⟨c8GoodSchema, by simp, rfl⟩
  · intro s hs hsel
    simp at hs
    subst hs
    rfl
  · exact (c8_dispatch.2.2 c8GoodSchema c8BadSchema
      (J.obj [("a", J.null)]) rfl rfl rfl).1

theorem mem_dedupStrAux (s : String) :
    ∀ (l acc : List String), s ∈ dedupStrAux acc l ↔ s ∈ acc ∨ s ∈ l := by
  intro l
  induction l with
  | nil => intro acc; simp [dedupStrAux]
  | cons x xs ih =>
    intro acc
    by_cases hx : x ∈ acc
    · rw [dedupStrAux, if_pos hx, ih]
      constructor
      · rintro (h | h)
        · exact Or.inl h
        · exact Or.inr (List.mem_cons_of_mem x h)
      · rintro (h | h)
        · exact Or.inl h
        · rcases List.mem_cons.mp h with rfl | h2
          · exact Or.inl hx
          · exact Or.inr h2
    · rw [dedupStrAux, if_neg hx, ih]
      constructor
      · rintro (h | h)
        · rcases List.mem_cons.mp h with rfl | h2
          · exact Or.inr (List.mem_cons_self s xs)
          · exact Or.inl h2
        · exact Or.inr (List.mem_cons_of_mem x h)
      · rintro (h | h)
        · exact Or.inl (List.mem_cons_of_mem x h)
        · rcases List.mem_cons.mp h with rfl | h2
          · exact Or.inl (List.mem_cons_self s acc)
          · exact Or.inr h2

theorem mem_dedupStr (s : String) (l : List String) :
    s ∈ dedupStr l ↔ s ∈ l := by
  rw [dedupStr, mem_dedupStrAux]
  simp

theorem mapMO_mem_rev {α β : Type} {f : α → Option β} :
    ∀ {l : List α} {l' : List β}, mapMO f l = some l' →
      ∀ x ∈ l, ∃ y ∈ l', f x = some y := by
  intro l
  induction l with
  | nil => intro l' h x hx; simp at hx
  | cons z zs ih =>
    intro l' h x hx
    rw [mapMO] at h
    cases hfz : f z with
    | none => rw [hfz] at h; simp at h
    | some y0 =>
      rw [hfz] at h
      cases hrest : mapMO f zs with
      | none => rw [hrest] at h; simp at h
      | some ys =>
        rw [hrest] at h
        simp at h
        subst h
        rcases List.mem_cons.mp hx with rfl | h2
        · exact ⟨y0, List.mem_cons_self y0 ys, hfz⟩
        · obtain ⟨y, hy, hfy⟩ := ih hrest x h2
          exact ⟨y, List.mem_cons_of_mem y0 hy, hfy⟩

theorem mem_requiredOfCombo (fs : List (String × J)) (k : String) (s : String) :
    s ∈ requiredOfCombo fs k ↔
      ∃ l, getKey fs k = some (J.arr l) ∧ ∃ e ∈ l, s ∈ comboEntryRequired e := by
  rw [requiredOfCombo]
  cases hk : getKey fs k with
  | none => simp
  | some v =>
    cases v <;> simp [List.mem_flatten]

/-- Counterexample to claim C9: the nested property x is declared in the
baseline (its generated path ends in x) and is nowhere in the new schema,
yet check_removed_property emits no flag, because _prop_in_schema compares
the name only against index 1 of each generated path - the top-level
ancestor name - and a is still present. -/
theorem c9_counterexample :
    checkRemovedPropertyF 8 "X" c9Base [("X", J.obj c9New)] = some [] ∧
    ((propGenF 8 [] (J.obj c9Base)).getD []).any
      (fun e => e.1.getLast? == some "x") = true ∧
    ((propGenF 8 [] (J.obj c9New)).getD []).any
      (fun e => e.1.getLast? == some "x") = false := by
  exact ⟨rfl, rfl, rfl⟩

/-- Claim C9 as amended: the top-level required flag lists exactly the
names in the new snapshot's required set (top-level required plus required
lists directly inside allOf/oneOf/anyOf alternatives) that are absent from
the baseline's, and fires exactly when that difference is non-empty; the
removed-property flag is emitted for a generated baseline path exactly when
_prop_in_schema fails for the name at index 1 of that path - the top-level
ancestor property - rather than for the (possibly nested) declared property
itself. -/
theorem c9_amended :
    (∀ (base new : List (String × J)) (d : List String),
      checkRequiredTopFlag base new = some d →
      ∀ s, s ∈ d ↔ (s ∈ getRequiredF new ∧ s ∉ getRequiredF base)) ∧
    (∀ (base new : List (String × J)) (s : String),
      s ∈ getRequiredF new → s ∉ getRequiredF base →
      ∃ d, checkRequiredTopFlag base new = some d ∧ s ∈ d) ∧
    (∀ (fs : List (String × J)) (s : String),
      s ∈ getRequiredF fs ↔
        ((∃ names, getKey fs "required" = some (J.arr names) ∧
            s ∈ stringsOf names) ∨
         (∃ k, (k = "allOf" ∨ k = "oneOf" ∨ k = "anyOf") ∧
            s ∈ requiredOfCombo fs k))) ∧
    (∀ (n : Nat) (i : String) (base tfs schemas : List (String × J))
      (gen : List (List String × J)) (flags : List (List String)),
      getKey schemas i = some (J.obj tfs) →
      propGenF n [] (J.obj base) = some gen →
      checkRemovedPropertyF n i base schemas = some flags →
      ∀ path, path ∈ flags ↔ ∃ e ∈ gen, e.1 = path ∧
        propInSchemaF n ((path[1]?).getD "") tfs schemas = some false) := by
  refine ⟨?_, ?_, ?_, ?_⟩
  · intro base new d h s
    rw [checkRequiredTopFlag] at h
    split at h
    · simp at h
    · dsimp only at h
      split at h
      · simp at h
      · cases h
        simp [List.mem_filter]
  · intro base new s hs hns
    rw [checkRequiredTopFlag]
    have h1 : (getRequiredF new).isEmpty = false := by
      cases hemp : getRequiredF new with
      | nil => rw [hemp] at hs; simp at hs
      | cons a l => simp
    have hmem : s ∈ (getRequiredF new).filter
        (fun sv => sv ∉ getRequiredF base) := by
      rw [List.mem_filter]
      exact ⟨hs, by simpa using hns⟩
    have h2 : ((getRequiredF new).filter
        (fun sv => sv ∉ getRequiredF base)).isEmpty = false := by
      cases hemp : (getRequiredF new).filter (fun sv => sv ∉ getRequiredF base) with
      | nil => rw [hemp] at hmem; simp at hmem
      | cons a l => simp
    refine ⟨_, ?_, hmem⟩
    simp only [h1, h2, Bool.false_eq_true, if_false]
  · intro fs s
    rw [getRequiredF, mem_dedupStr]
    simp only [List.mem_append]
    cases hreq : getKey fs "required" with
    | none => simp [hreq, or_assoc]
    | some v => cases v <;> (simp [hreq, or_assoc]; try tauto)
  · intro n i base tfs schemas gen flags hsch hgen hflags path
    rw [checkRemovedPropertyF, hgen] at hflags
    rw [hsch] at hflags
    simp only [Option.bind_eq_bind, Option.some_bind] at hflags
    cases hchecked : mapMO (fun e =>
        (propInSchemaF n ((e.1[1]?).getD "") tfs schemas).map
          (fun b => (e.1, b))) gen with
    | none => rw [hchecked] at hflags; simp at hflags
    | some checked =>
      rw [hchecked] at hflags
      simp at hflags
      subst hflags
      constructor
      · intro hp
        rw [List.mem_map] at hp
        obtain ⟨pair, hpair, hfst⟩ := hp
        obtain ⟨p1, p2⟩ := pair
        rw [List.mem_filter] at hpair
        obtain ⟨hpc, hneg⟩ := hpair
        obtain ⟨e, he, hfe⟩ := mapMO_mem hchecked _ hpc
        cases hpi : propInSchemaF n ((e.1[1]?).getD "") tfs schemas with
        | none => rw [hpi] at hfe; simp at hfe
        | some b =>
          rw [hpi] at hfe
          simp at hfe
          obtain ⟨hfe1, hfe2⟩ := hfe
          have hp1 : p1 = path := hfst
          have hb : p2 = false := by simpa using hneg
          subst hp1
          subst hb
          subst hfe2
          refine ⟨e, he, hfe1, ?_⟩
          rw [hfe1] at hpi
          exact hpi
      · rintro ⟨e, he, rfl, hpi⟩
        have hfe : (propInSchemaF n ((e.1[1]?).getD "") tfs schemas).map
            (fun b => (e.1, b)) = some (e.1, false) := by
          rw [hpi]
          rfl
        obtain ⟨y, hy, hfy⟩ := mapMO_mem_rev hchecked e he
        rw [hfe] at hfy
        cases hfy
        rw [List.mem_map]
        refine ⟨(e.1, false), ?_, rfl⟩
        rw [List.mem_filter]
        exact ⟨hy, by simp⟩

/-- Witness for c9_amended: the required-flag characterization at a base
requiring only a and a new snapshot requiring a and b, the membership
characterization of the required set, and the removed-property
characterization on the C9 corpus, all at concrete inputs. -/
theorem c9_amended_witness :
    ("b" ∈ ["b"] ↔
      ("b" ∈ getRequiredF [("required", J.arr [J.s "a", J.s "b"])] ∧
       "b" ∉ getRequiredF [("required", J.arr [J.s "a"])])) ∧
    (∃ d, checkRequiredTopFlag [("required", J.arr [J.s "a"])]
        [("required", J.arr [J.s "a", J.s "b"])] = some d ∧ "b" ∈ d) ∧
    ("a" ∈ getRequiredF [("required", J.arr [J.s "a"])] ↔
      ((∃ names, getKey [("required", J.arr [J.s "a"])] "required" =
          some (J.arr names) ∧ "a" ∈ stringsOf names) ∨
       (∃ k, (k = "allOf" ∨ k = "oneOf" ∨ k = "anyOf") ∧
          "a" ∈ requiredOfCombo [("required", J.arr [J.s "a"])] k))) ∧
    (["properties", "a", "properties", "x"] ∈ ([] : List (List String)) ↔
      ∃ e ∈ c9Gen, e.1 = ["properties", "a", "properties", "x"] ∧
        propInSchemaF 8
          ((["properties", "a", "properties", "x"][1]?).getD "")
          c9New [("X", J.obj c9New)] = some false) := by
  obtain ⟨h1, h2, h3, h4⟩ := c9_amended
  refine ⟨?_, ?_, ?_, ?_⟩
  · exact h1 [("required", J.arr [J.s "a"])]
      [("required", J.arr [J.s "a", J.s "b"])] ["b"] rfl "b"
  · exact h2 [("required", J.arr [J.s "a"])]
      [("required", J.arr [J.s "a", J.s "b"])] "b" (by decide) (by decide)
  · exact h3 [("required", J.arr [J.s "a"])] "a"
  · exact h4 8 "X" c9Base c9New [("X", J.obj c9New)] c9Gen [] rfl rfl rfl
      ["properties", "a", "properties", "x"]

theorem noAddTrue_succ_obj (m : Nat) (fs : List (String × J)) :
    noAddTrue (m + 1) (J.obj fs) =
      (!isTrueJ (getKey fs "additionalProperties") && fs.all (entOK m)) := rfl

theorem getKey_mem {fs : List (String × J)} {k : String} {v : J}
    (h : getKey fs k = some v) : (k, v) ∈ fs := by
  induction fs with
  | nil => simp [getKey] at h
  | cons kv rest ih =>
    obtain ⟨k0, v0⟩ := kv
    rw [getKey] at h
    by_cases hk : k0 = k
    · rw [if_pos hk] at h
      cases h
      subst hk
      exact List.mem_cons_self _ _
    · rw [if_neg hk] at h
      exact List.mem_cons_of_mem _ (ih h)

theorem mem_setKey {fs : List (String × J)} {k : String} {v : J}
    {x : String × J} (h : x ∈ setKey fs k v) : x = (k, v) ∨ x ∈ fs := by
  induction fs with
  | nil =>
    simp [setKey] at h
    exact Or.inl h
  | cons kv rest ih =>
    obtain ⟨k0, v0⟩ := kv
    rw [setKey] at h
    by_cases hk : k0 = k
    · rw [if_pos hk] at h
      rcases List.mem_cons.mp h with hh | hh
      · subst hk
        exact Or.inl hh
      · exact Or.inr (List.mem_cons_of_mem _ hh)
    · rw [if_neg hk] at h
      rcases List.mem_cons.mp h with hh | hh
      · subst hh
        exact Or.inr (List.mem_cons_self _ _)
      · rcases ih hh with h1 | h1
        · exact Or.inl h1
        · exact Or.inr (List.mem_cons_of_mem _ h1)

theorem mem_delKey {fs : List (String × J)} {k : String} {x : String × J}
    (h : x ∈ delKey fs k) : x ∈ fs := by
  induction fs with
  | nil => simp [delKey] at h
  | cons kv rest ih =>
    obtain ⟨k0, v0⟩ := kv
    rw [delKey] at h
    by_cases hk : k0 = k
    · rw [if_pos hk] at h
      exact List.mem_cons_of_mem _ (ih h)
    · rw [if_neg hk] at h
      rcases List.mem_cons.mp h with hh | hh
      · subst hh
        exact List.mem_cons_self _ _
      · exact List.mem_cons_of_mem _ (ih hh)

theorem mem_setDefault {fs : List (String × J)} {k : String} {v : J}
    {x : String × J} (h : x ∈ setDefault fs k v) : x = (k, v) ∨ x ∈ fs := by
  rw [setDefault] at h
  by_cases hk : hasKey fs k = true
  · rw [if_pos hk] at h
    exact Or.inr h
  · rw [if_neg hk] at h
    exact mem_setKey h

theorem getKey_setDefault_other (fs : List (String × J)) (key k : String)
    (v : J) (h : k ≠ key) :
    getKey (setDefault fs key v) k = getKey fs k := by
  rw [setDefault]
  by_cases hk : hasKey fs key = true
  · rw [if_pos hk]
  · rw [if_neg hk]
    exact getKey_setKey_other fs key k v h

theorem getKey_dep201909Put_other (acc : List (String × J)) (key k0 : String)
    (v0 : J) (k : String) (hk : k ≠ key) :
    getKey (dep201909Put acc key k0 v0) k = getKey acc k := by
  rw [dep201909Put]
  cases hg : getKey (setDefault acc key (J.obj [])) key with
  | none => exact getKey_setDefault_other acc key k (J.obj []) hk
  | some v =>
    cases v with
    | obj d =>
      rw [getKey_setKey_other _ key k _ hk]
      exact getKey_setDefault_other acc key k (J.obj []) hk
    | null => exact getKey_setDefault_other acc key k (J.obj []) hk
    | b bv => exact getKey_setDefault_other acc key k (J.obj []) hk
    | i iv => exact getKey_setDefault_other acc key k (J.obj []) hk
    | s sv => exact getKey_setDefault_other acc key k (J.obj []) hk
    | arr l => exact getKey_setDefault_other acc key k (J.obj []) hk

theorem getKey_dep201909Step_other (acc : List (String × J)) (kv : String × J)
    (k : String) (h2 : k ≠ "dependentRequired") (h3 : k ≠ "dependentSchemas") :
    getKey (dep201909Step acc kv) k = getKey acc k := by
  obtain ⟨k0, v0⟩ := kv
  rw [dep201909Step]
  cases v0 with
  | arr l => exact getKey_dep201909Put_other acc _ k0 _ k h2
  | obj o => exact getKey_dep201909Put_other acc _ k0 _ k h3
  | null => exact getKey_dep201909Put_other acc _ k0 _ k h3
  | b bv => exact getKey_dep201909Put_other acc _ k0 _ k h3
  | i iv => exact getKey_dep201909Put_other acc _ k0 _ k h3
  | s sv => exact getKey_dep201909Put_other acc _ k0 _ k h3

theorem getKey_201909_fold (k : String) (h2 : k ≠ "dependentRequired")
    (h3 : k ≠ "dependentSchemas") :
    ∀ (deps acc : List (String × J)),
      getKey (deps.foldl dep201909Step acc) k = getKey acc k := by
  intro deps
  induction deps with
  | nil => intro acc; rfl
  | cons kv rest ih =>
    intro acc
    rw [List.foldl_cons, ih]
    exact getKey_dep201909Step_other acc kv k h2 h3

theorem getKey_fixup201909_other (fs : List (String × J)) (k : String)
    (h1 : k ≠ "dependencies") (h2 : k ≠ "dependentRequired")
    (h3 : k ≠ "dependentSchemas") :
    getKey (fixupSchemaTo201909 fs) k = getKey fs k := by
  rw [fixupSchemaTo201909]
  cases hd : getKey fs "dependencies" with
  | none => rfl
  | some v =>
    cases v with
    | obj deps =>
      rw [getKey_201909_fold k h2 h3]
      exact getKey_delKey_other fs "dependencies" k h1
    | null => exact getKey_delKey_other fs "dependencies" k h1
    | b bv => exact getKey_delKey_other fs "dependencies" k h1
    | i iv => exact getKey_delKey_other fs "dependencies" k h1
    | s sv => exact getKey_delKey_other fs "dependencies" k h1
    | arr l => exact getKey_delKey_other fs "dependencies" k h1

theorem entOK_maps_obj (m : Nat) (key : String)
    (hs : subKeysSingle.contains key = false)
    (hc : subKeysCombo.contains key = false)
    (hm : subKeysMaps.contains key = true) (ps : List (String × J)) :
    entOK m (key, J.obj ps) = ps.all (fun p => noAddTrue m p.2) := by
  rw [entOK]
  dsimp only
  rw [hs, hc, hm]
  simp

theorem entOK_dep201909Put (m : Nat) (acc : List (String × J))
    (key k0 : String) (v0 : J)
    (hkey : key = "dependentRequired" ∨ key = "dependentSchemas")
    (ha : ∀ x ∈ acc, entOK m x = true) (hv : noAddTrue m v0 = true) :
    ∀ y ∈ dep201909Put acc key k0 v0, entOK m y = true := by
  have hacc1 : ∀ y ∈ setDefault acc key (J.obj []), entOK m y = true := by
    intro y hy
    rcases mem_setDefault hy with hh | hmem
    · subst hh
      rcases hkey with rfl | rfl <;> rfl
    · exact ha y hmem
  intro y hy
  rw [dep201909Put] at hy
  cases hg : getKey (setDefault acc key (J.obj [])) key with
  | none =>
    rw [hg] at hy
    exact hacc1 y hy
  | some v =>
    rw [hg] at hy
    cases v with
    | obj d =>
      rcases mem_setKey hy with hh | hmem
      · subst hh
        have hd : entOK m (key, J.obj d) = true := hacc1 _ (getKey_mem hg)
        rcases hkey with rfl | rfl
        · rw [entOK_maps_obj m "dependentRequired" rfl rfl rfl] at hd ⊢
          rw [List.all_eq_true] at hd ⊢
          intro p hp
          rcases mem_setKey hp with hh | hpd
          · subst hh
            exact hv
          · exact hd p hpd
        · rw [entOK_maps_obj m "dependentSchemas" rfl rfl rfl] at hd ⊢
          rw [List.all_eq_true] at hd ⊢
          intro p hp
          rcases mem_setKey hp with hh | hpd
          · subst hh
            exact hv
          · exact hd p hpd
      · exact hacc1 y hmem
    | null => exact hacc1 y hy
    | b bv => exact hacc1 y hy
    | i iv => exact hacc1 y hy
    | s sv => exact hacc1 y hy
    | arr l => exact hacc1 y hy

theorem entOK_dep201909Step (m : Nat) (acc : List (String × J))
    (kv : String × J) (ha : ∀ x ∈ acc, entOK m x = true)
    (hkv : noAddTrue m kv.2 = true) :
    ∀ y ∈ dep201909Step acc kv, entOK m y = true := by
  obtain ⟨k0, v0⟩ := kv
  rw [dep201909Step]
  cases v0 with
  | arr l => exact entOK_dep201909Put m acc _ k0 _ (Or.inl rfl) ha hkv
  | obj o => exact entOK_dep201909Put m acc _ k0 _ (Or.inr rfl) ha hkv
  | null => exact entOK_dep201909Put m acc _ k0 _ (Or.inr rfl) ha hkv
  | b bv => exact entOK_dep201909Put m acc _ k0 _ (Or.inr rfl) ha hkv
  | i iv => exact entOK_dep201909Put m acc _ k0 _ (Or.inr rfl) ha hkv
  | s sv => exact entOK_dep201909Put m acc _ k0 _ (Or.inr rfl) ha hkv

theorem entOK_201909_fold (m : Nat) :
    ∀ (deps acc : List (String × J)),
      (∀ x ∈ acc, entOK m x = true) →
      (∀ kv ∈ deps, noAddTrue m kv.2 = true) →
      ∀ x ∈ deps.foldl dep201909Step acc, entOK m x = true := by
  intro deps
  induction deps with
  | nil =>
    intro acc ha _ x hx
    exact ha x hx
  | cons kv rest ih =>
    intro acc ha hd x hx
    rw [List.foldl_cons] at hx
    exact ih _ (entOK_dep201909Step m acc kv ha (hd kv (List.mem_cons_self _ _)))
      (fun y hy => hd y (List.mem_cons_of_mem _ hy)) x hx

theorem entOK_fixup201909 (m : Nat) (fs : List (String × J))
    (ha : ∀ x ∈ fs, entOK m x = true) :
    ∀ x ∈ fixupSchemaTo201909 fs, entOK m x = true := by
  rw [fixupSchemaTo201909]
  cases hd : getKey fs "dependencies" with
  | none => exact ha
  | some v =>
    cases v with
    | obj deps =>
      refine entOK_201909_fold m deps _ (fun x hx => ha x (mem_delKey hx)) ?_
      intro kv hkv
      have hdep : entOK m ("dependencies", J.obj deps) = true :=
        ha _ (getKey_mem hd)
      rw [entOK_maps_obj m "dependencies" rfl rfl rfl, List.all_eq_true] at hdep
      exact hdep kv hkv
    | null => exact fun x hx => ha x (mem_delKey hx)
    | b bv => exact fun x hx => ha x (mem_delKey hx)
    | i iv => exact fun x hx => ha x (mem_delKey hx)
    | s sv => exact fun x hx => ha x (mem_delKey hx)
    | arr l => exact fun x hx => ha x (mem_delKey hx)

theorem getKey_mapVal {g : String → J → Option J} :
    ∀ {fs rs : List (String × J)},
      mapMO (fun kv => (g kv.1 kv.2).map (fun w => (kv.1, w))) fs = some rs →
      ∀ k, (getKey fs k = none ∧ getKey rs k = none) ∨
        ∃ v w, getKey fs k = some v ∧ getKey rs k = some w ∧ g k v = some w := by
  intro fs
  induction fs with
  | nil =>
    intro rs h k
    simp [mapMO] at h
    subst h
    exact Or.inl ⟨rfl, rfl⟩
  | cons kv rest ih =>
    intro rs h k
    obtain ⟨k0, v0⟩ := kv
    rw [mapMO] at h
    dsimp only at h
    cases hg : g k0 v0 with
    | none =>
      rw [hg] at h
      simp at h
    | some w0 =>
      rw [hg] at h
      cases hrest : mapMO (fun kv : String × J =>
          (g kv.1 kv.2).map (fun w => (kv.1, w))) rest with
      | none =>
        rw [hrest] at h
        simp at h
      | some rs0 =>
        rw [hrest] at h
        simp at h
        subst h
        by_cases hk : k0 = k
        · subst hk
          exact Or.inr ⟨v0, w0, by simp [getKey], by simp [getKey], hg⟩
        · rcases ih hrest k with ⟨h1, h2⟩ | ⟨v, w, h1, h2, h3⟩
          · exact Or.inl ⟨by simp [getKey, hk, h1], by simp [getKey, hk, h2]⟩
          · exact Or.inr ⟨v, w,
              by simp [getKey, hk, h1], by simp [getKey, hk, h2], h3⟩

theorem subKeysSingle_not_others (k : String)
    (h : subKeysSingle.contains k = true) :
    subKeysCombo.contains k = false ∧ subKeysMaps.contains k = false := by
  simp [subKeysSingle] at h
  rcases h with rfl | rfl | rfl | rfl | rfl | rfl <;> exact ⟨rfl, rfl⟩

theorem subKeysCombo_not_maps (k : String)
    (h : subKeysCombo.contains k = true) :
    subKeysMaps.contains k = false := by
  simp [subKeysCombo] at h
  rcases h with rfl | rfl | rfl <;> rfl

theorem subVal_single (f : Bool → J → Option J) (wp : String → J → Option J)
    (k : String) (v w : J) (h1 : subKeysSingle.contains k = true)
    (h : subVal f wp k v = some w) : f false v = some w := by
  obtain ⟨h2, h3⟩ := subKeysSingle_not_others k h1
  rw [subVal] at h
  rw [h1, h2, h3] at h
  simpa using h

theorem fixupSubSchemaF_not_true (n : Nat) (b : Bool) (j r : J)
    (h : fixupSubSchemaF n b j = some r) (hj : pyEqTrueB j = false) :
    isTrueJ (some r) = false := by
  cases n with
  | zero => simp [fixupSubSchemaF] at h
  | succ n =>
    cases j with
    | obj fs =>
      rw [fixupSubSchemaF] at h
      split at h
      · simp only [Option.bind_eq_bind, Option.bind_eq_some,
          Option.some.injEq] at h
        obtain ⟨C, hC, E, hE, hr⟩ := h
        rw [← hr]
        rfl
      · simp only [Option.bind_eq_bind, Option.some_bind, Option.bind_eq_some,
          Option.some.injEq] at h
        obtain ⟨E, hE, hr⟩ := h
        rw [← hr]
        rfl
    | b bv =>
      cases bv with
      | true => simp [pyEqTrueB] at hj
      | false =>
        rw [show fixupSubSchemaF (n + 1) b (J.b false) =
          some (J.b false) from rfl] at h
        cases h
        rfl
    | null =>
      rw [show fixupSubSchemaF (n + 1) b J.null = some J.null from rfl] at h
      cases h
      rfl
    | i iv =>
      rw [show fixupSubSchemaF (n + 1) b (J.i iv) = some (J.i iv) from rfl] at h
      cases h
      rfl
    | s sv =>
      rw [show fixupSubSchemaF (n + 1) b (J.s sv) = some (J.s sv) from rfl] at h
      cases h
      rfl
    | arr l =>
      rw [show fixupSubSchemaF (n + 1) b (J.arr l) =
        some (J.arr l) from rfl] at h
      cases h
      rfl

theorem entOK_single (m : Nat) (k : String) (w : J)
    (h1 : subKeysSingle.contains k = true) :
    entOK m (k, w) = noAddTrue m w := by
  rw [entOK]
  dsimp only
  rw [h1, if_pos rfl]

theorem entOK_combo (m : Nat) (k : String) (w : J)
    (h1 : subKeysSingle.contains k = false)
    (h2 : subKeysCombo.contains k = true) :
    entOK m (k, w) = (match w with
      | J.arr l => l.all (fun x => noAddTrue m x)
      | _ => true) := by
  rw [entOK]
  dsimp only
  rw [h1, h2, if_neg Bool.false_ne_true, if_pos rfl]

theorem entOK_mapsKey (m : Nat) (k : String) (w : J)
    (h1 : subKeysSingle.contains k = false)
    (h2 : subKeysCombo.contains k = false)
    (h3 : subKeysMaps.contains k = true) :
    entOK m (k, w) = (match w with
      | J.obj ps => ps.all (fun p => noAddTrue m p.2)
      | _ => true) := by
  rw [entOK]
  dsimp only
  rw [h1, h2, h3, if_neg Bool.false_ne_true, if_neg Bool.false_ne_true,
    if_pos rfl]

theorem entOK_otherKey (m : Nat) (k : String) (w : J)
    (h1 : subKeysSingle.contains k = false)
    (h2 : subKeysCombo.contains k = false)
    (h3 : subKeysMaps.contains k = false) :
    entOK m (k, w) = true := by
  rw [entOK]
  dsimp only
  rw [h1, h2, h3, if_neg Bool.false_ne_true, if_neg Bool.false_ne_true,
    if_neg Bool.false_ne_true]

theorem entOK_subVal (f : Bool → J → Option J) (wp : String → J → Option J)
    (hf : ∀ b j r, f b j = some r → ∀ m, noAddTrue m r = true)
    (k : String) (v w : J) (h : subVal f wp k v = some w) (m : Nat) :
    entOK m (k, w) = true := by
  by_cases h1 : subKeysSingle.contains k = true
  · obtain ⟨h2, h3⟩ := subKeysSingle_not_others k h1
    have hfv := subVal_single f wp k v w h1 h
    rw [entOK_single m k w h1]
    exact hf false v w hfv m
  · have h1' : subKeysSingle.contains k = false := by simpa using h1
    rw [subVal] at h
    by_cases h2 : subKeysCombo.contains k = true
    · have h3 := subKeysCombo_not_maps k h2
      rw [h1', h2, h3] at h
      simp only [Bool.false_eq_true, if_false, eq_self_iff_true, if_true,
        Option.bind_eq_bind, Option.some_bind] at h
      rw [entOK_combo m k w h1' h2]
      cases v with
      | arr l =>
        dsimp only at h
        cases hl2 : mapMO (f true) l with
        | none =>
          rw [hl2] at h
          simp at h
        | some l2 =>
          rw [hl2] at h
          simp at h
          subst h
          dsimp only
          rw [List.all_eq_true]
          intro y hy
          obtain ⟨x, hx, hfx⟩ := mapMO_mem hl2 y hy
          exact hf true x y hfx m
      | obj o =>
        dsimp only at h
        simp at h
        subst h
        rfl
      | s sv =>
        dsimp only at h
        simp at h
        subst h
        rfl
      | null => simp at h
      | b bv => simp at h
      | i iv => simp at h
    · have h2' : subKeysCombo.contains k = false := by simpa using h2
      by_cases h3 : subKeysMaps.contains k = true
      · rw [h1', h2', h3] at h
        simp only [Bool.false_eq_true, if_false, eq_self_iff_true, if_true,
          Option.bind_eq_bind, Option.some_bind] at h
        rw [entOK_mapsKey m k w h1' h2' h3]
        cases v with
        | obj ps =>
          dsimp only at h
          cases hps2 : mapMO (fun p =>
              (wp p.1 p.2).bind fun w =>
                (f true w).bind fun w2 => pure (p.1, w2)) ps with
          | none =>
            rw [hps2] at h
            simp at h
          | some ps2 =>
            rw [hps2] at h
            simp at h
            subst h
            dsimp only
            rw [List.all_eq_true]
            intro y hy
            obtain ⟨x, hx, hgx⟩ := mapMO_mem hps2 y hy
            simp only [Option.pure_def, Option.bind_eq_bind,
              Option.bind_eq_some, Option.some.injEq] at hgx
            obtain ⟨w1, hw1, w2, hw2, hy2⟩ := hgx
            rw [← hy2]
            exact hf true w1 w2 hw2 m
        | arr l =>
          cases l with
          | nil =>
            dsimp only at h
            simp at h
            subst h
            rfl
          | cons a as => simp at h
        | null => simp at h
        | b bv => simp at h
        | i iv => simp at h
        | s sv => simp at h
      · have h3' : subKeysMaps.contains k = false := by simpa using h3
        rw [h1', h2', h3'] at h
        simp only [Bool.false_eq_true, if_false, eq_self_iff_true, if_true,
          Option.bind_eq_bind, Option.some_bind, Option.some.injEq] at h
        subst h
        exact entOK_otherKey m k v h1' h2' h3'

theorem noAddTrue_holds : ∀ (n : Nat) (b : Bool) (j r : J),
    fixupSubSchemaF n b j = some r → ∀ m, noAddTrue m r = true := by
  intro n
  induction n with
  | zero =>
    intro b j r h
    simp [fixupSubSchemaF] at h
  | succ n ih =>
    intro b j r h m
    cases j with
    | obj fs0 =>
      rw [fixupSubSchemaF] at h
      have hstage : ∃ C E, mapMO (fun kv =>
          (subVal (fixupSubSchemaF n) (walkPropertiesF n) kv.1 kv.2).map
            (fun w => (kv.1, w)))
          (match getKey C "additionalProperties" with
           | some v =>
             if pyEqTrueB v then delKey C "additionalProperties" else C
           | none => C) = some E ∧ r = J.obj (fixupSchemaTo201909 E) := by
        split at h
        · simp only [Option.pure_def, Option.bind_eq_bind, Option.bind_eq_some,
            Option.some.injEq] at h
          obtain ⟨C, hC, E, hE, hr⟩ := h
          exact ⟨C, E, hE, hr.symm⟩
        · simp only [Option.pure_def, Option.bind_eq_bind, Option.some_bind,
            Option.bind_eq_some, Option.some.injEq] at h
          obtain ⟨E, hE, hr⟩ := h
          exact ⟨fixupInterrupts (delKey fs0 "description"), E, hE, hr.symm⟩
      obtain ⟨C, E, hE, hr⟩ := hstage
      subst hr
      cases m with
      | zero => rfl
      | succ m =>
        rw [noAddTrue_succ_obj, Bool.and_eq_true]
        constructor
        · rw [getKey_fixup201909_other E "additionalProperties"
            (by decide) (by decide) (by decide)]
          cases hAP : getKey C "additionalProperties" with
          | none =>
            rw [hAP] at hE
            dsimp only at hE
            rcases getKey_mapVal hE "additionalProperties" with
              ⟨_, h2⟩ | ⟨v, w, h1, _, _⟩
            · rw [h2]
              rfl
            · rw [hAP] at h1
              cases h1
          | some v =>
            rw [hAP] at hE
            dsimp only at hE
            by_cases hpy : pyEqTrueB v = true
            · rw [if_pos hpy] at hE
              rcases getKey_mapVal hE "additionalProperties" with
                ⟨_, h2⟩ | ⟨v2, w, h1, _, _⟩
              · rw [h2]
                rfl
              · rw [getKey_delKey_same] at h1
                cases h1
            · rw [if_neg hpy] at hE
              rcases getKey_mapVal hE "additionalProperties" with
                ⟨h1, h2⟩ | ⟨v2, w, h1, h2, h3⟩
              · rw [h2]
                rfl
              · rw [h2]
                rw [hAP] at h1
                cases h1
                have hw : isTrueJ (some w) = false := by
                  have hsub := subVal_single (fixupSubSchemaF n)
                    (walkPropertiesF n) "additionalProperties" v w rfl h3
                  exact fixupSubSchemaF_not_true n false v w hsub
                    (by simpa using hpy)
                simpa using hw
        · rw [List.all_eq_true]
          intro x hx
          refine entOK_fixup201909 m E ?_ x hx
          intro y hy
          obtain ⟨z, hz, hgz⟩ := mapMO_mem hE y hy
          cases hsv : subVal (fixupSubSchemaF n) (walkPropertiesF n)
              z.1 z.2 with
          | none =>
            rw [hsv] at hgz
            simp at hgz
          | some w =>
            rw [hsv] at hgz
            simp at hgz
            rw [← hgz]
            exact entOK_subVal _ _ ih z.1 z.2 w hsv m
    | null =>
      rw [show fixupSubSchemaF (n + 1) b J.null = some J.null from rfl] at h
      cases h
      cases m <;> rfl
    | b bv =>
      rw [show fixupSubSchemaF (n + 1) b (J.b bv) = some (J.b bv) from rfl] at h
      cases h
      cases m <;> rfl
    | i iv =>
      rw [show fixupSubSchemaF (n + 1) b (J.i iv) = some (J.i iv) from rfl] at h
      cases h
      cases m <;> rfl
    | s sv =>
      rw [show fixupSubSchemaF (n + 1) b (J.s sv) = some (J.s sv) from rfl] at h
      cases h
      cases m <;> rfl
    | arr l =>
      rw [show fixupSubSchemaF (n + 1) b (J.arr l) =
        some (J.arr l) from rfl] at h
      cases h
      cases m <;> rfl

theorem getKey_fixupInterrupts_other (fs : List (String × J)) (k : String)
    (h1 : k ≠ "properties") (h2 : k ≠ "oneOf") (h3 : k ≠ "allOf")
    (h4 : k ≠ "required") :
    getKey (fixupInterrupts fs) k = getKey fs k := by
  rw [fixupInterrupts]
  cases hp : getKey fs "properties" with
  | none => rfl
  | some v =>
    cases v with
    | obj props0 =>
      dsimp only
      repeat' split
      all_goals simp [getKey_setKey_other, h1, h2, h3, h4]
    | null => rfl
    | b bv => rfl
    | i iv => rfl
    | s sv => rfl
    | arr l => rfl

/-- Counterexample to claim C10: an additionalProperties entry whose value
is the integer 1 - not the literal true - is nonetheless deleted, because
the source tests equality with Python ==, under which 1 == True (bool is
an int subclass). -/
theorem c10_counterexample :
    isTrueJ (some (J.i 1)) = false ∧
    fixupSubSchemaF 2 false (J.obj [("additionalProperties", J.i 1)]) =
      some (J.obj []) := ⟨rfl, rfl⟩

/-- Claim C10 as amended: after fixup_sub_schema completes, no mapping
node reached by its traversal still contains an additionalProperties entry
whose value is the literal true (the noAddTrue checker holds at every
fuel); an additionalProperties entry whose value is not Python-equal to
True survives (the key is still present, its value rewritten by the
recursion); and an entry whose value is Python-equal to True - the literal
true or the integer 1 - is deleted. -/
theorem c10_amended :
    (∀ (n : Nat) (b : Bool) (j r : J), fixupSubSchemaF n b j = some r →
      ∀ m, noAddTrue m r = true) ∧
    (∀ (n : Nat) (fs rs : List (String × J)) (v : J),
      fixupSubSchemaF n false (J.obj fs) = some (J.obj rs) →
      getKey fs "additionalProperties" = some v → pyEqTrueB v = false →
      hasKey rs "additionalProperties" = true) ∧
    (∀ (n : Nat) (fs rs : List (String × J)) (v : J),
      fixupSubSchemaF n false (J.obj fs) = some (J.obj rs) →
      getKey fs "additionalProperties" = some v → pyEqTrueB v = true →
      hasKey rs "additionalProperties" = false) := by
  refine ⟨noAddTrue_holds, ?_, ?_⟩
  · intro n fs rs v h hv hpy
    cases n with
    | zero => simp [fixupSubSchemaF] at h
    | succ n =>
      rw [fixupSubSchemaF] at h
      simp only [Bool.false_eq_true, if_false, Option.pure_def,
        Option.bind_eq_bind, Option.some_bind, Option.bind_eq_some,
        Option.some.injEq] at h
      obtain ⟨E, hE, hr⟩ := h
      have hB : getKey (fixupInterrupts (delKey fs "description"))
          "additionalProperties" = some v := by
        rw [getKey_fixupInterrupts_other _ _ (by decide) (by decide)
          (by decide) (by decide),
          getKey_delKey_other fs "description" "additionalProperties"
          (by decide)]
        exact hv
      rw [hB] at hE
      dsimp only at hE
      rw [if_neg (by simp [hpy])] at hE
      rcases getKey_mapVal hE "additionalProperties" with
        ⟨h1, _⟩ | ⟨v2, w, _, h2, _⟩
      · rw [hB] at h1
        cases h1
      · have hrs : fixupSchemaTo201909 E = rs := by
          injection hr
        rw [hasKey, ← hrs, getKey_fixup201909_other _ _ (by decide)
          (by decide) (by decide), h2]
        rfl
  · intro n fs rs v h hv hpy
    cases n with
    | zero => simp [fixupSubSchemaF] at h
    | succ n =>
      rw [fixupSubSchemaF] at h
      simp only [Bool.false_eq_true, if_false, Option.pure_def,
        Option.bind_eq_bind, Option.some_bind, Option.bind_eq_some,
        Option.some.injEq] at h
      obtain ⟨E, hE, hr⟩ := h
      have hB : getKey (fixupInterrupts (delKey fs "description"))
          "additionalProperties" = some v := by
        rw [getKey_fixupInterrupts_other _ _ (by decide) (by decide)
          (by decide) (by decide),
          getKey_delKey_other fs "description" "additionalProperties"
          (by decide)]
        exact hv
      rw [hB] at hE
      dsimp only at hE
      rw [if_pos hpy] at hE
      rcases getKey_mapVal hE "additionalProperties" with
        ⟨_, h2⟩ | ⟨v2, w, h1, _, _⟩
      · have hrs : fixupSchemaTo201909 E = rs := by
          injection hr
        rw [hasKey, ← hrs, getKey_fixup201909_other _ _ (by decide)
          (by decide) (by decide), h2]
        rfl
      · rw [getKey_delKey_same] at h1
        cases h1

/-- Witness for c10_amended: the invariant evaluated on the fixup of a
node whose additionalProperties was the literal true, a kept entry with
value false, and a deleted entry with value true, all at concrete
inputs. -/
theorem c10_amended_witness :
    (noAddTrue 3 (J.obj []) = true) ∧
    (hasKey [("additionalProperties", J.b false)] "additionalProperties"
      = true) ∧
    (hasKey ([] : List (String × J)) "additionalProperties" = false) := by
  obtain ⟨h1, h2, h3⟩ := c10_amended
  refine ⟨?_, ?_, ?_⟩
  · exact h1 2 false (J.obj [("additionalProperties", J.b true)])
      (J.obj []) rfl 3
  · exact h2 2 [("additionalProperties", J.b false)]
      [("additionalProperties", J.b false)] (J.b false) rfl rfl rfl
  · exact h3 2 [("additionalProperties", J.b true)] [] (J.b true) rfl rfl rfl

end DtSchema
